import Mathlib

/-!
A shallow embedding of the realtime room/member/symbol layer of
`src/server/socket-server.ts` (the socket.io server of the
airsoft-tactical-map repository), together with proofs of the
specification claims about it.

Modelling conventions:
* JavaScript `Map` objects are modelled as association lists with the
  exact `Map` semantics: `set` overwrites the first (unique) occurrence
  of a key in place or appends a fresh key, `delete` removes it,
  iteration (`forEach`, `Array.from(..values())`) is list order.
* Timestamps (`new Date()` / `Date.now()`) are modelled by a logical
  clock `now : Nat` held in the server state; each processed inbound
  event sees one value of the clock and the clock advances between
  events (wall-clock monotonicity assumption).
* The generated symbol id (`symbol_${Date.now()}_${random}`) is an
  environment-supplied string carried by the `symbolCreate` event;
  its freshness (uniqueness) is a hypothesis where a claim needs it,
  matching the "collision probability negligible" reading of the spec.
* The per-connection closure variables `currentRoomId`/`currentUserId`
  are modelled as a finite map `bindings : socketId → roomId × userId`;
  a disconnect deletes the binding (the closure dies with the socket).
* The position payload is opaque to the server (stored and
  re-broadcast, never inspected), so it is modelled by a small
  comparable record.
-/

namespace SocketServer

/-- Opaque position payload: the server stores it in the member record and
re-broadcasts it without ever inspecting it. -/
structure UserPosition where
  latitude : Int
  longitude : Int
deriving DecidableEq, Repr

/-- Coordinates of a tactical symbol (latitude/longitude, opaque to the server). -/
structure Coordinates where
  latitude : Int
  longitude : Int
deriving DecidableEq, Repr

/-- `TacticalSymbol` as stored by the server.  At runtime the socket server
performs no schema validation, so every field a client may omit is an
`Option`; `type` and `coordinates` are kept mandatory (all clients in the
repository supply them). -/
structure TacticalSymbol where
  id : String
  roomId : Option String
  createdBy : Option String
  type : String
  coordinates : Coordinates
  label : Option String
  description : Option String
  color : Option String
  size : Option String
  rotation : Option Int
  isVisible : Option Bool
  createdAt : Nat
  updatedAt : Nat
deriving DecidableEq, Repr

/-- The `symbol_create` payload: `Omit<TacticalSymbol, 'id' | 'createdAt' | 'updatedAt'>`. -/
structure SymbolCreateFields where
  roomId : Option String
  createdBy : Option String
  type : String
  coordinates : Coordinates
  label : Option String
  description : Option String
  color : Option String
  size : Option String
  rotation : Option Int
  isVisible : Option Bool
deriving DecidableEq, Repr

/-- The `symbol_update` payload `{ id, ...updates }`: an id plus a partial
symbol.  A `none` field means the key is absent from the JS object, so the
object spread `{...symbol, ...updates}` leaves the stored value unchanged. -/
structure SymbolUpdateFields where
  id : String
  roomId : Option String
  createdBy : Option String
  type : Option String
  coordinates : Option Coordinates
  label : Option String
  description : Option String
  color : Option String
  size : Option String
  rotation : Option Int
  isVisible : Option Bool
  createdAt : Option Nat
  updatedAt : Option Nat
deriving DecidableEq, Repr

/-- A member record of `RoomData.members`. -/
structure Member where
  userId : String
  socketId : String
  username : String
  isOnline : Bool
  lastSeen : Nat
  position : Option UserPosition
deriving DecidableEq, Repr

/-- One entry of the `activeRooms` registry. -/
structure RoomData where
  id : String
  members : List (String × Member)
  symbols : List (String × TacticalSymbol)
deriving DecidableEq, Repr

/-- The member projection used by the `room_state` snapshot
(`{userId, username, isOnline, lastSeen, position}` — `socketId` dropped). -/
structure MemberView where
  userId : String
  username : String
  isOnline : Bool
  lastSeen : Nat
  position : Option UserPosition
deriving DecidableEq, Repr

/-- Outbound socket messages emitted by the server. -/
inductive Msg where
  | roomState (members : List MemberView) (symbols : List TacticalSymbol)
  | joinRoomSuccess (roomId userId : String)
  | memberJoined (userId : String) (username : Option String) (isOnline : Bool) (joinedAt : Nat)
  | memberLeft (userId : String) (leftAt : Nat)
  | positionUpdate (p : UserPosition)
  | symbolCreated (s : TacticalSymbol)
  | symbolUpdated (s : TacticalSymbol)
  | symbolDeleted (id : String)
  | errorMsg (message : String)
deriving DecidableEq, Repr

/-- A message together with the socket id it is emitted to (`io.to(id).emit`). -/
structure OutEvent where
  target : String
  msg : Msg
deriving DecidableEq, Repr

/-- Whole-server state: the `activeRooms` registry plus the per-connection
closure variables `currentRoomId`/`currentUserId` of every live socket, and
the logical clock. -/
structure ServerState where
  activeRooms : List (String × RoomData)
  bindings : List (String × String × String)
  now : Nat
deriving DecidableEq, Repr

/-! ### JavaScript `Map` semantics over association lists -/

/-- `Map.get`. -/
def mapLookup {K V : Type} [DecidableEq K] : List (K × V) → K → Option V
  | [], _ => none
  | p :: t, k => if p.1 = k then some p.2 else mapLookup t k

/-- `Map.set`: overwrite in place, or append a new key. -/
def mapSet {K V : Type} [DecidableEq K] : List (K × V) → K → V → List (K × V)
  | [], k, v => [(k, v)]
  | p :: t, k, v => if p.1 = k then (k, v) :: t else p :: mapSet t k v

/-- `Map.delete`. -/
def mapDelete {K V : Type} [DecidableEq K] : List (K × V) → K → List (K × V)
  | [], _ => []
  | p :: t, k => if p.1 = k then t else p :: mapDelete t k

/-- Keys of an association list are pairwise distinct (true of every JS `Map`). -/
abbrev keysNoDup {K V : Type} (l : List (K × V)) : Prop := (l.map Prod.fst).Nodup

/-! ### The server's utility functions -/

/-- `getRoomData`: returns the existing room, or creates an empty one and
inserts it into the registry (create-on-get, also on pure read paths). -/
def getRoomData (rooms : List (String × RoomData)) (roomId : String) :
    List (String × RoomData) × RoomData :=
  match mapLookup rooms roomId with
  | some room => (rooms, room)
  | none =>
      let room : RoomData := { id := roomId, members := [], symbols := [] }
      (mapSet rooms roomId room, room)

/-- `cleanupRoom`: delete the registry entry when the member map is empty. -/
def cleanupRoom (rooms : List (String × RoomData)) (roomId : String) :
    List (String × RoomData) :=
  match mapLookup rooms roomId with
  | some room => if room.members = [] then mapDelete rooms roomId else rooms
  | none => rooms

/-- `broadcastToRoom`: emit `msg` to the socket of every member of the room
whose socket id differs from the (optional) excluded one. -/
def broadcastToRoom (rooms : List (String × RoomData)) (roomId : String)
    (msg : Msg) (excludeSocketId : Option String) : List OutEvent :=
  match mapLookup rooms roomId with
  | none => []
  | some room =>
      room.members.filterMap fun p =>
        if excludeSocketId = some p.2.socketId then none
        else some { target := p.2.socketId, msg := msg }

/-- `username || 'Unknown'` (JS falsy: both a missing and an empty name default). -/
def orUnknown : Option String → String
  | none => "Unknown"
  | some s => if s = "" then "Unknown" else s

/-- The in-handler helper `leaveRoom(roomId, userId, socketId)`: remove the
member only when its stored socket id equals the supplied one, notify the
remaining members, then reclaim the room if it became empty. -/
def leaveRoom (s : ServerState) (roomId userId socketId : String) :
    ServerState × List OutEvent :=
  match mapLookup s.activeRooms roomId with
  | none => (s, [])
  | some room =>
      match mapLookup room.members userId with
      | none => (s, [])
      | some member =>
          if member.socketId = socketId then
            let room1 : RoomData := { room with members := mapDelete room.members userId }
            let rooms1 := mapSet s.activeRooms roomId room1
            let evs := broadcastToRoom rooms1 roomId (Msg.memberLeft userId s.now) none
            ({ s with activeRooms := cleanupRoom rooms1 roomId }, evs)
          else (s, [])

/-- Projection used when building the `room_state` snapshot. -/
def memberView (m : Member) : MemberView :=
  { userId := m.userId, username := m.username, isOnline := m.isOnline
    lastSeen := m.lastSeen, position := m.position }

/-- The `if (currentRoomId && currentUserId) leaveRoom(...)` prologue of the
`join_room` handler: leave the previous room when the connection is bound. -/
def joinLeavePhase (s : ServerState) (socketId : String) : ServerState × List OutEvent :=
  match mapLookup s.bindings socketId with
  | some (r0, u0) => leaveRoom s r0 u0 socketId
  | none => (s, [])

/-- The `join_room` handler: leave the previous room if bound, rebind, add
(or replace) the member record, notify the others, then send the snapshot
and the join acknowledgement to the joining socket. -/
def handleJoin (s : ServerState) (socketId roomId userId : String)
    (username : Option String) : ServerState × List OutEvent :=
  let leavePart := joinLeavePhase s socketId
  let s1 := leavePart.1
  let s2 := { s1 with bindings := mapSet s1.bindings socketId (roomId, userId) }
  let gr := getRoomData s2.activeRooms roomId
  let member : Member :=
    { userId := userId, socketId := socketId, username := orUnknown username
      isOnline := true, lastSeen := s.now, position := none }
  let room1 : RoomData := { gr.2 with members := mapSet gr.2.members userId member }
  let s3 := { s2 with activeRooms := mapSet gr.1 roomId room1 }
  let joinedEvs :=
    broadcastToRoom s3.activeRooms roomId
      (Msg.memberJoined userId username true s.now) (some socketId)
  let stateMsg :=
    Msg.roomState (room1.members.map fun p => memberView p.2)
      (room1.symbols.map Prod.snd)
  (s3, leavePart.2 ++ joinedEvs ++
        [⟨socketId, stateMsg⟩, ⟨socketId, Msg.joinRoomSuccess roomId userId⟩])

/-- The `position_update` handler. -/
def handlePosition (s : ServerState) (socketId : String) (p : UserPosition) :
    ServerState × List OutEvent :=
  match mapLookup s.bindings socketId with
  | none => (s, [⟨socketId, Msg.errorMsg "Not in a room"⟩])
  | some (roomId, userId) =>
      let gr := getRoomData s.activeRooms roomId
      let s1 := { s with activeRooms := gr.1 }
      match mapLookup gr.2.members userId with
      | none => (s1, [])
      | some member =>
          let member1 := { member with position := some p, lastSeen := s.now }
          let room1 : RoomData := { gr.2 with members := mapSet gr.2.members userId member1 }
          let s2 := { s1 with activeRooms := mapSet gr.1 roomId room1 }
          (s2, broadcastToRoom s2.activeRooms roomId (Msg.positionUpdate p) (some socketId))

/-- Building the stored symbol in `symbol_create`:
`{...symbolData, id, createdAt: now, updatedAt: now}` — no defaulting of any
payload field happens here. -/
def mkSymbol (fields : SymbolCreateFields) (id : String) (now : Nat) : TacticalSymbol :=
  { id := id, roomId := fields.roomId, createdBy := fields.createdBy
    type := fields.type, coordinates := fields.coordinates
    label := fields.label, description := fields.description
    color := fields.color, size := fields.size, rotation := fields.rotation
    isVisible := fields.isVisible, createdAt := now, updatedAt := now }

/-- The `symbol_create` handler; `freshId` is the generated
`symbol_${Date.now()}_${random}` string. -/
def handleSymbolCreate (s : ServerState) (socketId freshId : String)
    (fields : SymbolCreateFields) : ServerState × List OutEvent :=
  match mapLookup s.bindings socketId with
  | none => (s, [⟨socketId, Msg.errorMsg "Not in a room"⟩])
  | some (roomId, _userId) =>
      let symbol := mkSymbol fields freshId s.now
      let gr := getRoomData s.activeRooms roomId
      let room1 : RoomData := { gr.2 with symbols := mapSet gr.2.symbols freshId symbol }
      let s1 := { s with activeRooms := mapSet gr.1 roomId room1 }
      (s1, broadcastToRoom s1.activeRooms roomId (Msg.symbolCreated symbol) none)

/-- A supplied (present) field overrides the stored one, an absent field
keeps it — the semantics of the object spread `{...symbol, ...updates}`. -/
def mergeOpt {A : Type} (updated stored : Option A) : Option A :=
  match updated with
  | some v => some v
  | none => stored

/-- The merge `{...symbol, ...updates, updatedAt: now}` of `symbol_update`.
`id` was destructured out of the payload before the spread, so the stored
`id` survives; `updatedAt` is written after the spread, so any supplied
`updatedAt` is overridden by the server clock. -/
def applyUpdates (sym : TacticalSymbol) (up : SymbolUpdateFields) (now : Nat) :
    TacticalSymbol :=
  { id := sym.id
    roomId := mergeOpt up.roomId sym.roomId
    createdBy := mergeOpt up.createdBy sym.createdBy
    type := up.type.getD sym.type
    coordinates := up.coordinates.getD sym.coordinates
    label := mergeOpt up.label sym.label
    description := mergeOpt up.description sym.description
    color := mergeOpt up.color sym.color
    size := mergeOpt up.size sym.size
    rotation := mergeOpt up.rotation sym.rotation
    isVisible := mergeOpt up.isVisible sym.isVisible
    createdAt := up.createdAt.getD sym.createdAt
    updatedAt := now }

/-- The `symbol_update` handler. -/
def handleSymbolUpdate (s : ServerState) (socketId : String)
    (up : SymbolUpdateFields) : ServerState × List OutEvent :=
  match mapLookup s.bindings socketId with
  | none => (s, [⟨socketId, Msg.errorMsg "Not in a room"⟩])
  | some (roomId, _userId) =>
      let gr := getRoomData s.activeRooms roomId
      let s1 := { s with activeRooms := gr.1 }
      match mapLookup gr.2.symbols up.id with
      | none => (s1, [⟨socketId, Msg.errorMsg "Symbol not found"⟩])
      | some sym =>
          let sym1 := applyUpdates sym up s.now
          let room1 : RoomData := { gr.2 with symbols := mapSet gr.2.symbols up.id sym1 }
          let s2 := { s1 with activeRooms := mapSet gr.1 roomId room1 }
          (s2, broadcastToRoom s2.activeRooms roomId (Msg.symbolUpdated sym1) none)

/-- The `symbol_delete` handler. -/
def handleSymbolDelete (s : ServerState) (socketId symbolId : String) :
    ServerState × List OutEvent :=
  match mapLookup s.bindings socketId with
  | none => (s, [⟨socketId, Msg.errorMsg "Not in a room"⟩])
  | some (roomId, _userId) =>
      let gr := getRoomData s.activeRooms roomId
      let s1 := { s with activeRooms := gr.1 }
      match mapLookup gr.2.symbols symbolId with
      | none => (s1, [⟨socketId, Msg.errorMsg "Symbol not found"⟩])
      | some _sym =>
          let room1 : RoomData := { gr.2 with symbols := mapDelete gr.2.symbols symbolId }
          let s2 := { s1 with activeRooms := mapSet gr.1 roomId room1 }
          (s2, broadcastToRoom s2.activeRooms roomId (Msg.symbolDeleted symbolId) none)

/-- The `disconnect` handler: run the guarded leave for the current binding,
then drop the connection's closure state. -/
def handleDisconnect (s : ServerState) (socketId : String) :
    ServerState × List OutEvent :=
  match mapLookup s.bindings socketId with
  | some (r0, u0) =>
      let lr := leaveRoom s r0 u0 socketId
      ({ lr.1 with bindings := mapDelete lr.1.bindings socketId }, lr.2)
  | none => ({ s with bindings := mapDelete s.bindings socketId }, [])

/-- The inbound events of the realtime protocol (`ping` omitted: it touches
no room state and answers `pong` to the sender only). -/
inductive InEvent where
  | join (socketId roomId userId : String) (username : Option String)
  | position (socketId : String) (p : UserPosition)
  | symbolCreate (socketId freshId : String) (fields : SymbolCreateFields)
  | symbolUpdate (socketId : String) (up : SymbolUpdateFields)
  | symbolDelete (socketId symbolId : String)
  | disconnect (socketId : String)
deriving DecidableEq, Repr

/-- One event-loop step: dispatch an inbound event to its handler. -/
def step (s : ServerState) : InEvent → ServerState × List OutEvent
  | .join c r u n => handleJoin s c r u n
  | .position c p => handlePosition s c p
  | .symbolCreate c fid f => handleSymbolCreate s c fid f
  | .symbolUpdate c up => handleSymbolUpdate s c up
  | .symbolDelete c i => handleSymbolDelete s c i
  | .disconnect c => handleDisconnect s c

/-- Advance the logical clock between two processed events. -/
def tick (s : ServerState) : ServerState := { s with now := s.now + 1 }

/-- Run a sequence of inbound events, collecting every emitted event. -/
def run (s : ServerState) : List InEvent → ServerState × List OutEvent
  | [] => (s, [])
  | e :: es =>
      let r1 := step s e
      let r2 := run (tick r1.1) es
      (r2.1, r1.2 ++ r2.2)

/-- The empty server at process start. -/
def state0 : ServerState := { activeRooms := [], bindings := [], now := 0 }

/-! ### Observations -/

/-- Member map of a room (empty when the room is not in the registry). -/
def roomMembers (s : ServerState) (r : String) : List (String × Member) :=
  match mapLookup s.activeRooms r with
  | none => []
  | some room => room.members

/-- Symbol map of a room (empty when the room is not in the registry). -/
def roomSymbols (s : ServerState) (r : String) : List (String × TacticalSymbol) :=
  match mapLookup s.activeRooms r with
  | none => []
  | some room => room.symbols

/-- The socket id stored in the member record of `(r, u)`, if any. -/
def memberSock (s : ServerState) (r u : String) : Option String :=
  (mapLookup (roomMembers s r) u).map Member.socketId

/-- Member count as observed through the room snapshot. -/
def memberCountOf (s : ServerState) (r : String) : Nat :=
  (roomMembers s r).length

/-- Number of live connections whose binding points at room `r`. -/
def boundCount (s : ServerState) (r : String) : Nat :=
  (s.bindings.filter fun p => decide (p.2.1 = r)).length

/-! ### Lemmas about the `Map` model -/

theorem mapLookup_set_self {K V : Type} [DecidableEq K] (l : List (K × V)) (k : K) (v : V) :
    mapLookup (mapSet l k v) k = some v := by
  induction l with
  | nil => simp [mapSet, mapLookup]
  | cons p t ih =>
      by_cases h : p.1 = k
      · simp [mapSet, h, mapLookup]
      · simp [mapSet, h, mapLookup, ih]

theorem mapLookup_set_ne {K V : Type} [DecidableEq K] (l : List (K × V)) (k : K) (v : V)
    (k' : K) (h : k' ≠ k) : mapLookup (mapSet l k v) k' = mapLookup l k' := by
  induction l with
  | nil => simp [mapSet, mapLookup, Ne.symm h]
  | cons p t ih =>
      by_cases hp : p.1 = k
      · subst hp
        simp [mapSet, mapLookup, Ne.symm h]
      · simp only [mapSet, if_neg hp, mapLookup, ih]

theorem mapLookup_delete_ne {K V : Type} [DecidableEq K] (l : List (K × V)) (k k' : K)
    (h : k' ≠ k) : mapLookup (mapDelete l k) k' = mapLookup l k' := by
  induction l with
  | nil => simp [mapDelete, mapLookup]
  | cons p t ih =>
      by_cases hp : p.1 = k
      · subst hp
        simp [mapDelete, mapLookup, Ne.symm h]
      · simp only [mapDelete, if_neg hp, mapLookup, ih]

theorem mem_keys_set {K V : Type} [DecidableEq K] (l : List (K × V)) (k : K) (v : V)
    (a : K) : a ∈ (mapSet l k v).map Prod.fst ↔ a = k ∨ a ∈ l.map Prod.fst := by
  induction l with
  | nil => simp [mapSet]
  | cons p t ih =>
      by_cases hp : p.1 = k
      · subst hp
        simp [mapSet]
      · simp only [mapSet, if_neg hp, List.map_cons, List.mem_cons, ih]
        tauto

theorem keysNoDup_set {K V : Type} [DecidableEq K] (l : List (K × V)) (k : K) (v : V)
    (hnd : keysNoDup l) : keysNoDup (mapSet l k v) := by
  induction l with
  | nil => simp [mapSet, keysNoDup]
  | cons p t ih =>
      unfold keysNoDup at hnd ⊢
      simp only [List.map_cons, List.nodup_cons] at hnd
      by_cases hp : p.1 = k
      · subst hp
        simpa [mapSet, List.nodup_cons] using hnd
      · have ht := ih hnd.2
        simp only [mapSet, if_neg hp, List.map_cons, List.nodup_cons]
        refine ⟨?_, ht⟩
        intro hmem
        rcases (mem_keys_set t k v p.1).mp hmem with h1 | h1
        · exact hp h1
        · exact hnd.1 h1

theorem keys_delete_sublist {K V : Type} [DecidableEq K] (l : List (K × V)) (k : K) :
    List.Sublist ((mapDelete l k).map Prod.fst) (l.map Prod.fst) := by
  induction l with
  | nil => simp [mapDelete]
  | cons p t ih =>
      by_cases hp : p.1 = k
      · simp only [mapDelete, if_pos hp, List.map_cons]
        exact (List.sublist_cons_self _ _)
      · simp only [mapDelete, if_neg hp, List.map_cons]
        exact ih.cons₂ _

theorem keysNoDup_delete {K V : Type} [DecidableEq K] (l : List (K × V)) (k : K)
    (hnd : keysNoDup l) : keysNoDup (mapDelete l k) :=
  List.Nodup.sublist (keys_delete_sublist l k) hnd

theorem mapLookup_delete_self {K V : Type} [DecidableEq K] (l : List (K × V)) (k : K)
    (hnd : keysNoDup l) : mapLookup (mapDelete l k) k = none := by
  induction l with
  | nil => simp [mapDelete, mapLookup]
  | cons p t ih =>
      unfold keysNoDup at hnd
      simp only [List.map_cons, List.nodup_cons] at hnd
      by_cases hp : p.1 = k
      · subst hp
        simp only [mapDelete, if_pos rfl]
        cases hlk : mapLookup t p.1 with
        | none => exact hlk
        | some v =>
            exfalso
            exact hnd.1 (by
              clear ih hnd
              induction t with
              | nil => simp [mapLookup] at hlk
              | cons q tt iht =>
                  by_cases hq : q.1 = p.1
                  · simp [hq]
                  · simp only [mapLookup, if_neg hq] at hlk
                    simp [iht hlk])
      · simp only [mapDelete, if_neg hp, mapLookup, if_neg hp]
        exact ih hnd.2

theorem mem_of_mapLookup {K V : Type} [DecidableEq K] (l : List (K × V)) (k : K) (v : V)
    (h : mapLookup l k = some v) : (k, v) ∈ l := by
  induction l with
  | nil => simp [mapLookup] at h
  | cons p t ih =>
      by_cases hp : p.1 = k
      · simp only [mapLookup, if_pos hp] at h
        have hpq : p = (k, v) := by
          cases p
          simp_all
        rw [hpq]
        exact List.mem_cons_self _ _
      · simp only [mapLookup, if_neg hp] at h
        exact List.mem_cons_of_mem _ (ih h)

theorem mapLookup_of_mem {K V : Type} [DecidableEq K] (l : List (K × V)) (k : K) (v : V)
    (hnd : keysNoDup l) (h : (k, v) ∈ l) : mapLookup l k = some v := by
  induction l with
  | nil => simp at h
  | cons p t ih =>
      unfold keysNoDup at hnd
      simp only [List.map_cons, List.nodup_cons] at hnd
      rcases List.mem_cons.mp h with h1 | h1
      · subst h1
        simp [mapLookup]
      · by_cases hp : p.1 = k
        · exfalso
          apply hnd.1
          rw [hp]
          exact List.mem_map.mpr ⟨(k, v), h1, rfl⟩
        · simp only [mapLookup, if_neg hp]
          exact ih hnd.2 h1

theorem mem_set_elim {K V : Type} [DecidableEq K] (l : List (K × V)) (k : K) (v : V)
    (q : K × V) (h : q ∈ mapSet l k v) : q = (k, v) ∨ q ∈ l := by
  induction l with
  | nil => simpa [mapSet] using h
  | cons p t ih =>
      by_cases hp : p.1 = k
      · simp only [mapSet, if_pos hp, List.mem_cons] at h
        rcases h with h1 | h1
        · exact Or.inl h1
        · exact Or.inr (List.mem_cons_of_mem _ h1)
      · simp only [mapSet, if_neg hp, List.mem_cons] at h
        rcases h with h1 | h1
        · exact Or.inr (h1 ▸ List.mem_cons_self p t)
        · rcases ih h1 with h2 | h2
          · exact Or.inl h2
          · exact Or.inr (List.mem_cons_of_mem _ h2)

theorem mapLookup_ne_nil {K V : Type} [DecidableEq K] (l : List (K × V)) (k : K) (v : V)
    (h : mapLookup l k = some v) : l ≠ [] := by
  intro hnil
  subst hnil
  simp [mapLookup] at h

theorem countP_key_eq_one {K V : Type} [DecidableEq K] (l : List (K × V)) (k : K) (v : V)
    (hnd : keysNoDup l) (h : mapLookup l k = some v) :
    (l.countP fun p => decide (p.1 = k)) = 1 := by
  induction l with
  | nil => simp [mapLookup] at h
  | cons p t ih =>
      unfold keysNoDup at hnd
      simp only [List.map_cons, List.nodup_cons] at hnd
      by_cases hp : p.1 = k
      · subst hp
        have hz : (t.countP fun q => decide (q.1 = p.1)) = 0 := by
          rw [List.countP_eq_zero]
          intro q hq
          simp only [decide_eq_true_eq]
          intro hqe
          exact hnd.1 (hqe ▸ List.mem_map.mpr ⟨q, hq, rfl⟩)
        simp [List.countP_cons, hz]
      · simp only [mapLookup, if_neg hp] at h
        have := ih hnd.2 h
        simp [List.countP_cons, hp, this]

/-! ### Sample payloads used by the concrete witnesses -/

/-- A concrete coordinates payload. -/
def sampleCoords : Coordinates := ⟨10, 20⟩

/-- A concrete `symbol_create` payload supplying neither `color` nor `rotation`. -/
def sampleCreateFields : SymbolCreateFields :=
  { roomId := none, createdBy := none, type := "waypoint", coordinates := sampleCoords
    label := none, description := none, color := none, size := none
    rotation := none, isVisible := none }

/-- A concrete partial `symbol_update` payload (only `label` supplied). -/
def sampleUpdateFields : SymbolUpdateFields :=
  { id := "sym1", roomId := none, createdBy := none, type := none, coordinates := none
    label := some "new label", description := none, color := none, size := none
    rotation := none, isVisible := none, createdAt := none, updatedAt := none }

/-- A hostile `symbol_update` payload that also carries `createdAt` and
`updatedAt` values of its own. -/
def hostileUpdateFields : SymbolUpdateFields :=
  { id := "sym1", roomId := none, createdBy := none, type := none, coordinates := none
    label := none, description := none, color := some "#00FF00", size := none
    rotation := none, isVisible := none, createdAt := some 777, updatedAt := some 999 }

/-- If a symbol lookup through `roomSymbols` succeeds, the room is registered
and its symbol map is the one observed. -/
theorem roomSymbols_lookup_some (s : ServerState) (r k : String) (sym : TacticalSymbol)
    (h : mapLookup (roomSymbols s r) k = some sym) :
    ∃ room, mapLookup s.activeRooms r = some room ∧ roomSymbols s r = room.symbols := by
  unfold roomSymbols at h ⊢
  cases hr : mapLookup s.activeRooms r with
  | none =>
      rw [hr] at h
      simp [mapLookup] at h
  | some room =>
      exact ⟨room, rfl, rfl⟩

/-- Claim C9: a room-scoped inbound event (position, symbolCreate,
symbolUpdate, symbolDelete) on a connection that is not bound to a room is
answered with a single "Not in a room" error event to that connection only,
the whole server state (registry and per-connection bindings) is unchanged,
nothing is delivered to any other connection, and the connection is not
terminated (its binding state is intact, so it can keep sending events). -/
theorem claim9_unbound_room_events_rejected (s : ServerState) (c : String)
    (hb : mapLookup s.bindings c = none) (p : UserPosition) (fid : String)
    (f : SymbolCreateFields) (up : SymbolUpdateFields) (i : String) :
    step s (.position c p) = (s, [⟨c, Msg.errorMsg "Not in a room"⟩]) ∧
    step s (.symbolCreate c fid f) = (s, [⟨c, Msg.errorMsg "Not in a room"⟩]) ∧
    step s (.symbolUpdate c up) = (s, [⟨c, Msg.errorMsg "Not in a room"⟩]) ∧
    step s (.symbolDelete c i) = (s, [⟨c, Msg.errorMsg "Not in a room"⟩]) := by
  refine ⟨?_, ?_, ?_, ?_⟩ <;>
    simp [step, handlePosition, handleSymbolCreate, handleSymbolUpdate,
      handleSymbolDelete, hb]

/-- Witness for C9 at the freshly started server and an unbound socket. -/
theorem claim9_witness :
    step state0 (.position "c" ⟨0, 0⟩) = (state0, [⟨"c", Msg.errorMsg "Not in a room"⟩]) ∧
    step state0 (.symbolCreate "c" "sym1" sampleCreateFields) =
      (state0, [⟨"c", Msg.errorMsg "Not in a room"⟩]) ∧
    step state0 (.symbolUpdate "c" sampleUpdateFields) =
      (state0, [⟨"c", Msg.errorMsg "Not in a room"⟩]) ∧
    step state0 (.symbolDelete "c" "sym1") =
      (state0, [⟨"c", Msg.errorMsg "Not in a room"⟩]) :=
  claim9_unbound_room_events_rejected state0 "c" (by decide) ⟨0, 0⟩ "sym1"
    sampleCreateFields sampleUpdateFields "sym1"

/-- Claim C7: updating an existing symbol with a partial payload keeps every
field that the payload does not supply, overwrites every field it does supply
with the supplied value, and refreshes the update timestamp to a value that is
at least the prior one (given wall-clock monotonicity, i.e. the stored
timestamp does not lie in the clock's future). -/
theorem claim7_partial_update_merges (s : ServerState) (c r u : String)
    (up : SymbolUpdateFields) (sym : TacticalSymbol)
    (hb : mapLookup s.bindings c = some (r, u))
    (hsym : mapLookup (roomSymbols s r) up.id = some sym)
    (hnow : sym.updatedAt ≤ s.now) :
    ∃ sym1,
      mapLookup (roomSymbols (step s (.symbolUpdate c up)).1 r) up.id = some sym1 ∧
      sym1.id = sym.id ∧
      (up.roomId = none → sym1.roomId = sym.roomId) ∧
      (∀ v, up.roomId = some v → sym1.roomId = some v) ∧
      (up.createdBy = none → sym1.createdBy = sym.createdBy) ∧
      (∀ v, up.createdBy = some v → sym1.createdBy = some v) ∧
      (up.type = none → sym1.type = sym.type) ∧
      (∀ v, up.type = some v → sym1.type = v) ∧
      (up.coordinates = none → sym1.coordinates = sym.coordinates) ∧
      (∀ v, up.coordinates = some v → sym1.coordinates = v) ∧
      (up.label = none → sym1.label = sym.label) ∧
      (∀ v, up.label = some v → sym1.label = some v) ∧
      (up.description = none → sym1.description = sym.description) ∧
      (∀ v, up.description = some v → sym1.description = some v) ∧
      (up.color = none → sym1.color = sym.color) ∧
      (∀ v, up.color = some v → sym1.color = some v) ∧
      (up.size = none → sym1.size = sym.size) ∧
      (∀ v, up.size = some v → sym1.size = some v) ∧
      (up.rotation = none → sym1.rotation = sym.rotation) ∧
      (∀ v, up.rotation = some v → sym1.rotation = some v) ∧
      (up.isVisible = none → sym1.isVisible = sym.isVisible) ∧
      (∀ v, up.isVisible = some v → sym1.isVisible = some v) ∧
      (up.createdAt = none → sym1.createdAt = sym.createdAt) ∧
      (∀ v, up.createdAt = some v → sym1.createdAt = v) ∧
      sym.updatedAt ≤ sym1.updatedAt := by
  obtain ⟨room, hr, hsyms⟩ := roomSymbols_lookup_some s r up.id sym hsym
  rw [hsyms] at hsym
  refine ⟨applyUpdates sym up s.now, ?_, ?_⟩
  · simp only [step, handleSymbolUpdate, hb, getRoomData, hr, hsym, roomSymbols,
      mapLookup_set_self]
  · repeat' apply And.intro
    all_goals
      first
        | rfl
        | (intro h; simp [applyUpdates, mergeOpt, h])
        | (intro v h; simp [applyUpdates, mergeOpt, h])
        | (simp only [applyUpdates]; exact hnow)

/-- A concrete stored symbol used by the C7 and C10 witnesses. -/
def claim7Ssym : TacticalSymbol :=
  { id := "sym1", roomId := some "R", createdBy := some "U", type := "waypoint"
    coordinates := sampleCoords, label := some "old", description := none
    color := some "#FF0000", size := some "medium", rotation := some 0
    isVisible := some true, createdAt := 2, updatedAt := 2 }

/-- A concrete reachable-shaped state: room `R` with one member `U` on socket
`c1` and the stored symbol `sym1`, at clock 5. -/
def claim7SState : ServerState :=
  { activeRooms := [("R",
      { id := "R"
        members := [("U",
          { userId := "U", socketId := "c1", username := "alice"
            isOnline := true, lastSeen := 2, position := none })]
        symbols := [("sym1", claim7Ssym)] })]
    bindings := [("c1", "R", "U")], now := 5 }

/-- Witness for C7: a bound member updates only the label of an existing
symbol; every other field survives and the timestamp moves forward. -/
theorem claim7_witness :
    ∃ sym1,
      mapLookup (roomSymbols (step claim7SState (.symbolUpdate "c1" sampleUpdateFields)).1 "R")
          sampleUpdateFields.id = some sym1 ∧
      sym1.id = claim7Ssym.id ∧
      (sampleUpdateFields.roomId = none → sym1.roomId = claim7Ssym.roomId) ∧
      (∀ v, sampleUpdateFields.roomId = some v → sym1.roomId = some v) ∧
      (sampleUpdateFields.createdBy = none → sym1.createdBy = claim7Ssym.createdBy) ∧
      (∀ v, sampleUpdateFields.createdBy = some v → sym1.createdBy = some v) ∧
      (sampleUpdateFields.type = none → sym1.type = claim7Ssym.type) ∧
      (∀ v, sampleUpdateFields.type = some v → sym1.type = v) ∧
      (sampleUpdateFields.coordinates = none → sym1.coordinates = claim7Ssym.coordinates) ∧
      (∀ v, sampleUpdateFields.coordinates = some v → sym1.coordinates = v) ∧
      (sampleUpdateFields.label = none → sym1.label = claim7Ssym.label) ∧
      (∀ v, sampleUpdateFields.label = some v → sym1.label = some v) ∧
      (sampleUpdateFields.description = none → sym1.description = claim7Ssym.description) ∧
      (∀ v, sampleUpdateFields.description = some v → sym1.description = some v) ∧
      (sampleUpdateFields.color = none → sym1.color = claim7Ssym.color) ∧
      (∀ v, sampleUpdateFields.color = some v → sym1.color = some v) ∧
      (sampleUpdateFields.size = none → sym1.size = claim7Ssym.size) ∧
      (∀ v, sampleUpdateFields.size = some v → sym1.size = some v) ∧
      (sampleUpdateFields.rotation = none → sym1.rotation = claim7Ssym.rotation) ∧
      (∀ v, sampleUpdateFields.rotation = some v → sym1.rotation = some v) ∧
      (sampleUpdateFields.isVisible = none → sym1.isVisible = claim7Ssym.isVisible) ∧
      (∀ v, sampleUpdateFields.isVisible = some v → sym1.isVisible = some v) ∧
      (sampleUpdateFields.createdAt = none → sym1.createdAt = claim7Ssym.createdAt) ∧
      (∀ v, sampleUpdateFields.createdAt = some v → sym1.createdAt = v) ∧
      claim7Ssym.updatedAt ≤ sym1.updatedAt :=
  claim7_partial_update_merges claim7SState "c1" "R" "U" sampleUpdateFields claim7Ssym
    (by decide) (by decide) (by decide)

/-- Claim C10: `symbol_update` can never change the stored symbol's `id` (it
stays the key the symbol is stored under), and `updatedAt` is always the
server's processing-time clock — even when the payload itself carries
`id`, `createdAt` or `updatedAt` values (the theorem quantifies over every
payload, including such hostile ones). -/
theorem claim10_update_protected_fields (s : ServerState) (c r u : String)
    (up : SymbolUpdateFields) (sym : TacticalSymbol)
    (hb : mapLookup s.bindings c = some (r, u))
    (hsym : mapLookup (roomSymbols s r) up.id = some sym)
    (hwf : ∀ q ∈ roomSymbols s r, q.2.id = q.1) :
    ∃ sym1,
      mapLookup (roomSymbols (step s (.symbolUpdate c up)).1 r) up.id = some sym1 ∧
      sym1.id = up.id ∧
      sym1.updatedAt = s.now ∧
      (∀ q ∈ roomSymbols (step s (.symbolUpdate c up)).1 r, q.2.id = q.1) := by
  obtain ⟨room, hr, hsyms⟩ := roomSymbols_lookup_some s r up.id sym hsym
  have hid : sym.id = up.id := hwf _ (mem_of_mapLookup _ _ _ hsym)
  rw [hsyms] at hsym hwf
  have hpost : roomSymbols (step s (.symbolUpdate c up)).1 r =
      mapSet room.symbols up.id (applyUpdates sym up s.now) := by
    simp only [step, handleSymbolUpdate, hb, getRoomData, hr, hsym, roomSymbols,
      mapLookup_set_self]
  refine ⟨applyUpdates sym up s.now, ?_, ?_, rfl, ?_⟩
  · rw [hpost]
    exact mapLookup_set_self _ _ _
  · simpa [applyUpdates] using hid
  · intro q hq
    rw [hpost] at hq
    rcases mem_set_elim _ _ _ _ hq with h1 | h1
    · rw [h1]
      simpa [applyUpdates] using hid
    · exact hwf _ h1

/-- Witness for C10: the hostile payload supplies `createdAt := 777` and
`updatedAt := 999`, yet the stored record keeps its key as id and gets the
server clock (time 5) as `updatedAt`. -/
theorem claim10_witness :
    ∃ sym1,
      mapLookup (roomSymbols (step claim7SState (.symbolUpdate "c1" hostileUpdateFields)).1 "R")
          hostileUpdateFields.id = some sym1 ∧
      sym1.id = hostileUpdateFields.id ∧
      sym1.updatedAt = claim7SState.now ∧
      (∀ q ∈ roomSymbols (step claim7SState (.symbolUpdate "c1" hostileUpdateFields)).1 "R",
        q.2.id = q.1) :=
  claim10_update_protected_fields claim7SState "c1" "R" "U" hostileUpdateFields claim7Ssym
    (by decide) (by decide) (by decide)

/-! ### Lemmas about the guarded leave -/

/-- A successful `memberSock` observation exposes the room and member record. -/
theorem memberSock_some_elim (t : ServerState) (r u cm : String)
    (h : memberSock t r u = some cm) :
    ∃ room m, mapLookup t.activeRooms r = some room ∧
      mapLookup room.members u = some m ∧ m.socketId = cm := by
  cases hr : mapLookup t.activeRooms r with
  | none =>
      simp only [memberSock, roomMembers, hr, mapLookup] at h
      exact absurd h (by simp)
  | some room =>
      cases hu : mapLookup room.members u with
      | none =>
          simp only [memberSock, roomMembers, hr, hu] at h
          simp at h
      | some m =>
          simp only [memberSock, roomMembers, hr, hu] at h
          simp at h
          exact ⟨room, m, rfl, hu, h⟩

/-- `memberSock` ignores the per-connection bindings and the clock. -/
theorem memberSock_bindings_irrelevant (t : ServerState) (b : List (String × String × String))
    (r u : String) : memberSock { t with bindings := b } r u = memberSock t r u := rfl

/-- `cleanupRoom` touches no other key. -/
theorem cleanupRoom_lookup_ne (l : List (String × RoomData)) (rid r : String)
    (h : r ≠ rid) : mapLookup (cleanupRoom l rid) r = mapLookup l r := by
  unfold cleanupRoom
  cases mapLookup l rid with
  | none => rfl
  | some room =>
      by_cases he : room.members = []
      · simp only [he, if_pos rfl]
        exact mapLookup_delete_ne l rid r h
      · simp [he]

/-- `cleanupRoom` is the identity on a room that still has members. -/
theorem cleanupRoom_of_nonempty (l : List (String × RoomData)) (rid : String)
    (room : RoomData) (h : mapLookup l rid = some room) (hne : room.members ≠ []) :
    cleanupRoom l rid = l := by
  unfold cleanupRoom
  rw [h]
  simp [hne]

/-- A guarded leave for a different (room, user) pair, or one supplying a
socket id other than the stored one, does not remove the observed member. -/
theorem leaveRoom_preserves_member (t : ServerState) (r u r0 u0 cs cm : String)
    (hm : memberSock t r u = some cm)
    (hcase : (r0 ≠ r ∨ u0 ≠ u) ∨ cs ≠ cm) :
    memberSock (leaveRoom t r0 u0 cs).1 r u = some cm := by
  obtain ⟨room, m, hr, hu, hsock⟩ := memberSock_some_elim t r u cm hm
  cases hr0 : mapLookup t.activeRooms r0 with
  | none =>
      simp only [leaveRoom, hr0]
      exact hm
  | some room0 =>
      cases hu0 : mapLookup room0.members u0 with
      | none =>
          simp only [leaveRoom, hr0, hu0]
          exact hm
      | some m0 =>
          by_cases hg : m0.socketId = cs
          · simp only [leaveRoom, hr0, hu0, if_pos hg]
            by_cases hrr : r0 = r
            · subst hrr
              have hroom : room0 = room := by
                rw [hr0] at hr
                injection hr
              subst hroom
              have huu : u0 ≠ u := by
                rcases hcase with h1 | h1
                · rcases h1 with h2 | h2
                  · exact absurd rfl h2
                  · exact h2
                · intro heq
                  subst heq
                  rw [hu0] at hu
                  have hmm : m0 = m := by injection hu
                  subst hmm
                  exact h1 (hg ▸ hsock.symm).symm
              have hlk : mapLookup (mapDelete room0.members u0) u = some m :=
                (mapLookup_delete_ne room0.members u0 u (Ne.symm huu)).trans hu
              have hnonnil : mapDelete room0.members u0 ≠ [] :=
                mapLookup_ne_nil _ u m hlk
              simp only [memberSock, roomMembers]
              rw [cleanupRoom_of_nonempty _ _ _ (mapLookup_set_self _ _ _) hnonnil]
              simp only [mapLookup_set_self]
              rw [hlk]
              simp [hsock]
            · have hne : r ≠ r0 := fun hh => hrr hh.symm
              simp only [memberSock, roomMembers]
              rw [cleanupRoom_lookup_ne _ r0 r hne, mapLookup_set_ne _ _ _ _ hne, hr, hu]
              simp [hsock]
          · simp only [leaveRoom, hr0, hu0, if_neg hg]
            exact hm

/-- A guarded leave keeps the member keys of every room duplicate-free. -/
theorem leaveRoom_members_nodup (t : ServerState) (r r0 u0 cs : String)
    (hnd : keysNoDup (roomMembers t r)) (hndr : keysNoDup t.activeRooms) :
    keysNoDup (roomMembers (leaveRoom t r0 u0 cs).1 r) := by
  cases hr0 : mapLookup t.activeRooms r0 with
  | none =>
      simp only [leaveRoom, hr0]
      exact hnd
  | some room0 =>
      cases hu0 : mapLookup room0.members u0 with
      | none =>
          simp only [leaveRoom, hr0, hu0]
          exact hnd
      | some m0 =>
          by_cases hg : m0.socketId = cs
          · simp only [leaveRoom, hr0, hu0, if_pos hg]
            by_cases hrr : r0 = r
            · subst hrr
              simp only [roomMembers, hr0] at hnd
              simp only [roomMembers]
              by_cases he : (mapDelete room0.members u0) = []
              · have hdel : cleanupRoom
                    (mapSet t.activeRooms r0 { room0 with members := mapDelete room0.members u0 }) r0 =
                    mapDelete (mapSet t.activeRooms r0
                      { room0 with members := mapDelete room0.members u0 }) r0 := by
                  unfold cleanupRoom
                  rw [mapLookup_set_self]
                  simp [he]
                rw [hdel, mapLookup_delete_self _ _ (keysNoDup_set _ _ _ hndr)]
                simp [keysNoDup]
              · rw [cleanupRoom_of_nonempty _ _ _ (mapLookup_set_self _ _ _) he,
                  mapLookup_set_self]
                exact keysNoDup_delete _ _ hnd
            · have hne : r ≠ r0 := fun hh => hrr hh.symm
              simp only [roomMembers]
              rw [cleanupRoom_lookup_ne _ r0 r hne, mapLookup_set_ne _ _ _ _ hne]
              exact hnd
          · simp only [leaveRoom, hr0, hu0, if_neg hg]
            exact hnd

/-- The guarded leave never touches the per-connection bindings. -/
theorem leaveRoom_bindings (t : ServerState) (r0 u0 cs : String) :
    (leaveRoom t r0 u0 cs).1.bindings = t.bindings := by
  cases hr0 : mapLookup t.activeRooms r0 with
  | none => simp [leaveRoom, hr0]
  | some room0 =>
      cases hu0 : mapLookup room0.members u0 with
      | none => simp [leaveRoom, hr0, hu0]
      | some m0 =>
          by_cases hg : m0.socketId = cs
          · simp [leaveRoom, hr0, hu0, hg]
          · simp [leaveRoom, hr0, hu0, hg]

/-- The guarded leave keeps the room keys duplicate-free. -/
theorem leaveRoom_rooms_nodup (t : ServerState) (r0 u0 cs : String)
    (hnd : keysNoDup t.activeRooms) : keysNoDup (leaveRoom t r0 u0 cs).1.activeRooms := by
  cases hr0 : mapLookup t.activeRooms r0 with
  | none => simpa [leaveRoom, hr0] using hnd
  | some room0 =>
      cases hu0 : mapLookup room0.members u0 with
      | none => simpa [leaveRoom, hr0, hu0] using hnd
      | some m0 =>
          by_cases hg : m0.socketId = cs
          · simp only [leaveRoom, hr0, hu0, if_pos hg]
            unfold cleanupRoom
            cases hcl : mapLookup (mapSet t.activeRooms r0
                { room0 with members := mapDelete room0.members u0 }) r0 with
            | none => exact keysNoDup_set _ _ _ hnd
            | some rm =>
                by_cases he : rm.members = []
                · simp only [he, if_pos rfl]
                  exact keysNoDup_delete _ _ (keysNoDup_set _ _ _ hnd)
                · simp only [he, if_neg he]
                  exact keysNoDup_set _ _ _ hnd
          · simpa [leaveRoom, hr0, hu0, hg] using hnd

/-- `getRoomData` keeps the room keys duplicate-free. -/
theorem getRoomData_rooms_nodup (rooms : List (String × RoomData)) (r : String)
    (hnd : keysNoDup rooms) : keysNoDup (getRoomData rooms r).1 := by
  unfold getRoomData
  cases hl : mapLookup rooms r with
  | none => exact keysNoDup_set _ _ _ hnd
  | some room => exact hnd

/-- The member map handed out by `getRoomData` is the room's (or empty). -/
theorem getRoomData_members_nodup (t : ServerState) (r : String)
    (hnd : keysNoDup (roomMembers t r)) :
    keysNoDup (getRoomData t.activeRooms r).2.members := by
  unfold getRoomData
  cases hl : mapLookup t.activeRooms r with
  | none => simp [keysNoDup]
  | some room => simpa [roomMembers, hl] using hnd

/-- After any join, the joining user's member record stores the joining socket. -/
theorem handleJoin_memberSock (s : ServerState) (c r u : String) (n : Option String) :
    memberSock (handleJoin s c r u n).1 r u = some c := by
  simp [handleJoin, memberSock, roomMembers, mapLookup_set_self]

/-- The member map of the joined room after a join. -/
theorem handleJoin_roomMembers (s : ServerState) (c r u : String) (n : Option String) :
    roomMembers (handleJoin s c r u n).1 r =
      mapSet (getRoomData (joinLeavePhase s c).1.activeRooms r).2.members u
        ⟨u, c, orUnknown n, true, s.now, none⟩ := by
  simp [handleJoin, roomMembers, mapLookup_set_self]

/-- The bindings after a join: the previous ones with the joiner rebound. -/
theorem handleJoin_bindings (s : ServerState) (c r u : String) (n : Option String) :
    (handleJoin s c r u n).1.bindings = mapSet s.bindings c (r, u) := by
  have hlp : (joinLeavePhase s c).1.bindings = s.bindings := by
    unfold joinLeavePhase
    cases hb : mapLookup s.bindings c with
    | none => rfl
    | some p =>
        obtain ⟨r0, u0⟩ := p
        exact leaveRoom_bindings s r0 u0 c
  simp [handleJoin, hlp]

/-- Claim C1: when a second connection `c2` joins with the same `userId` in
the same room, the room ends up with exactly one member record for that user
and it stores `c2`; a subsequent disconnect (the explicit-leave and
disconnect cleanup are the same code path) arriving from the superseded
first connection `c1` does not remove that record; and the guarded removal
is exact: supplying a socket id other than the stored one returns the state
unchanged with no emitted events (reporting that no removal happened), while
supplying the stored one removes the record. -/
theorem claim1_supersede_guarded_removal (s : ServerState) (c1 c2 r u : String)
    (n : Option String) (hne : c1 ≠ c2)
    (hb1 : mapLookup s.bindings c1 = some (r, u))
    (hm : memberSock s r u = some c1)
    (hnd : keysNoDup (roomMembers s r))
    (hndr : keysNoDup s.activeRooms) :
    memberSock (step s (.join c2 r u n)).1 r u = some c2 ∧
    ((roomMembers (step s (.join c2 r u n)).1 r).countP fun p => decide (p.1 = u)) = 1 ∧
    memberSock (step (tick (step s (.join c2 r u n)).1) (.disconnect c1)).1 r u = some c2 ∧
    leaveRoom (step s (.join c2 r u n)).1 r u c1 = ((step s (.join c2 r u n)).1, []) ∧
    memberSock (leaveRoom (step s (.join c2 r u n)).1 r u c2).1 r u = none := by
  have hms1 : memberSock (joinLeavePhase s c2).1 r u = some c1 := by
    unfold joinLeavePhase
    cases hb2 : mapLookup s.bindings c2 with
    | none => exact hm
    | some p =>
        obtain ⟨r0, u0⟩ := p
        exact leaveRoom_preserves_member s r u r0 u0 c2 c1 hm (Or.inr (Ne.symm hne))
  have hnd1 : keysNoDup (roomMembers (joinLeavePhase s c2).1 r) := by
    unfold joinLeavePhase
    cases hb2 : mapLookup s.bindings c2 with
    | none => exact hnd
    | some p =>
        obtain ⟨r0, u0⟩ := p
        exact leaveRoom_members_nodup s r r0 u0 c2 hnd hndr
  have hndr1 : keysNoDup (joinLeavePhase s c2).1.activeRooms := by
    unfold joinLeavePhase
    cases hb2 : mapLookup s.bindings c2 with
    | none => exact hndr
    | some p =>
        obtain ⟨r0, u0⟩ := p
        exact leaveRoom_rooms_nodup s r0 u0 c2 hndr
  have h1 : memberSock (step s (.join c2 r u n)).1 r u = some c2 :=
    handleJoin_memberSock s c2 r u n
  have hmemb := handleJoin_roomMembers s c2 r u n
  have hndpost : keysNoDup (roomMembers (step s (.join c2 r u n)).1 r) := by
    rw [show (step s (.join c2 r u n)) = handleJoin s c2 r u n from rfl, hmemb]
    exact keysNoDup_set _ _ _ (getRoomData_members_nodup _ _ hnd1)
  have hndrpost : keysNoDup (step s (.join c2 r u n)).1.activeRooms := by
    simp only [step, handleJoin]
    exact keysNoDup_set _ _ _ (getRoomData_rooms_nodup _ _ hndr1)
  refine ⟨h1, ?_, ?_, ?_, ?_⟩
  · rw [show (step s (.join c2 r u n)) = handleJoin s c2 r u n from rfl, hmemb]
    exact countP_key_eq_one _ _ _
      (keysNoDup_set _ _ _ (getRoomData_members_nodup _ _ hnd1))
      (mapLookup_set_self _ _ _)
  · have hb1' : mapLookup (tick (handleJoin s c2 r u n).1).bindings c1 = some (r, u) := by
      show mapLookup (handleJoin s c2 r u n).1.bindings c1 = some (r, u)
      rw [handleJoin_bindings, mapLookup_set_ne _ _ _ _ hne]
      exact hb1
    simp only [step, handleDisconnect, hb1']
    exact leaveRoom_preserves_member (tick (handleJoin s c2 r u n).1) r u r u c1 c2 h1
      (Or.inr hne)
  · obtain ⟨room, m, hr, hu, hsock⟩ := memberSock_some_elim _ r u c2 h1
    simp only [leaveRoom, hr, hu]
    rw [if_neg]
    rw [hsock]
    exact Ne.symm hne
  · obtain ⟨room, m, hr, hu, hsock⟩ := memberSock_some_elim _ r u c2 h1
    have hndm : keysNoDup room.members := by
      have := hndpost
      rw [show roomMembers (step s (.join c2 r u n)).1 r = room.members from by
        simp only [roomMembers, hr]] at this
      exact this
    simp only [leaveRoom, hr, hu, if_pos hsock]
    by_cases he : mapDelete room.members u = []
    · have hdel : cleanupRoom
          (mapSet (step s (.join c2 r u n)).1.activeRooms r
            { room with members := mapDelete room.members u }) r =
          mapDelete (mapSet (step s (.join c2 r u n)).1.activeRooms r
            { room with members := mapDelete room.members u }) r := by
        unfold cleanupRoom
        rw [mapLookup_set_self]
        simp [he]
      simp only [memberSock, roomMembers, hdel,
        mapLookup_delete_self _ _ (keysNoDup_set _ _ _ hndrpost), mapLookup]
      rfl
    · have hcl : cleanupRoom (mapSet (step s (.join c2 r u n)).1.activeRooms r
          { room with members := mapDelete room.members u }) r =
          mapSet (step s (.join c2 r u n)).1.activeRooms r
            { room with members := mapDelete room.members u } :=
        cleanupRoom_of_nonempty _ _ { room with members := mapDelete room.members u }
          (mapLookup_set_self _ _ _) he
      simp only [memberSock, roomMembers, hcl, mapLookup_set_self,
        mapLookup_delete_self _ _ hndm]
      rfl

/-- Witness for C1: in a one-member room (member `U` on socket `c1`, binding
present), socket `c2` joins as the same user. -/
theorem claim1_witness :
    memberSock (step claim7SState (.join "c2" "R" "U" none)).1 "R" "U" = some "c2" ∧
    ((roomMembers (step claim7SState (.join "c2" "R" "U" none)).1 "R").countP
      fun p => decide (p.1 = "U")) = 1 ∧
    memberSock (step (tick (step claim7SState (.join "c2" "R" "U" none)).1)
      (.disconnect "c1")).1 "R" "U" = some "c2" ∧
    leaveRoom (step claim7SState (.join "c2" "R" "U" none)).1 "R" "U" "c1" =
      ((step claim7SState (.join "c2" "R" "U" none)).1, []) ∧
    memberSock (leaveRoom (step claim7SState (.join "c2" "R" "U" none)).1 "R" "U" "c2").1
      "R" "U" = none :=
  claim1_supersede_guarded_removal claim7SState "c1" "c2" "R" "U" none
    (by decide) (by decide) (by decide) (by decide) (by decide)

/-! ### Broadcast and membership lemmas -/

/-- The freshly set entry is in the map. -/
theorem mem_set_self {K V : Type} [DecidableEq K] (l : List (K × V)) (k : K) (v : V) :
    (k, v) ∈ mapSet l k v := by
  induction l with
  | nil => simp [mapSet]
  | cons p t ih =>
      by_cases hp : p.1 = k
      · simp [mapSet, hp]
      · simp only [mapSet, if_neg hp, List.mem_cons]
        exact Or.inr ih

/-- Entries under other keys survive a `Map.set`. -/
theorem mem_set_of_mem_ne {K V : Type} [DecidableEq K] (l : List (K × V)) (k : K) (v : V)
    (q : K × V) (hq : q ∈ l) (hne : q.1 ≠ k) : q ∈ mapSet l k v := by
  induction l with
  | nil => simp at hq
  | cons p t ih =>
      by_cases hp : p.1 = k
      · simp only [mapSet, if_pos hp, List.mem_cons]
        rcases List.mem_cons.mp hq with h1 | h1
        · exact absurd (h1 ▸ hp) hne
        · exact Or.inr h1
      · simp only [mapSet, if_neg hp, List.mem_cons]
        rcases List.mem_cons.mp hq with h1 | h1
        · exact Or.inl h1
        · exact Or.inr (ih h1)

/-- `Map.delete` only drops entries, and (on duplicate-free keys) exactly the key. -/
theorem mem_mapDelete_key {K V : Type} [DecidableEq K] (l : List (K × V)) (k : K)
    (q : K × V) (hnd : keysNoDup l) (hq : q ∈ mapDelete l k) : q ∈ l ∧ q.1 ≠ k := by
  induction l with
  | nil => simp [mapDelete] at hq
  | cons p t ih =>
      simp only [keysNoDup, List.map_cons, List.nodup_cons] at hnd
      by_cases hp : p.1 = k
      · simp only [mapDelete, if_pos hp] at hq
        refine ⟨List.mem_cons_of_mem _ hq, ?_⟩
        intro hqk
        exact hnd.1 ((hp ▸ hqk) ▸ List.mem_map.mpr ⟨q, hq, rfl⟩)
      · simp only [mapDelete, if_neg hp, List.mem_cons] at hq
        rcases hq with h1 | h1
        · exact ⟨h1 ▸ List.mem_cons_self p t, h1 ▸ hp⟩
        · obtain ⟨h2, h3⟩ := ih hnd.2 h1
          exact ⟨List.mem_cons_of_mem _ h2, h3⟩

/-- `Map.delete` is a subset, with no key-distinctness assumption. -/
theorem mapDelete_subset {K V : Type} [DecidableEq K] (l : List (K × V)) (k : K)
    (q : K × V) (hq : q ∈ mapDelete l k) : q ∈ l := by
  induction l with
  | nil => simp [mapDelete] at hq
  | cons p t ih =>
      by_cases hp : p.1 = k
      · simp only [mapDelete, if_pos hp] at hq
        exact List.mem_cons_of_mem _ hq
      · simp only [mapDelete, if_neg hp, List.mem_cons] at hq
        rcases hq with h1 | h1
        · exact h1 ▸ List.mem_cons_self p t
        · exact List.mem_cons_of_mem _ (ih h1)

/-- Delivery lemma: every member whose socket is not excluded gets the message. -/
theorem mem_broadcast (rooms : List (String × RoomData)) (r : String) (msg : Msg)
    (e : Option String) (room : RoomData) (q : String × Member)
    (hr : mapLookup rooms r = some room) (hq : q ∈ room.members)
    (hne : e ≠ some q.2.socketId) :
    OutEvent.mk q.2.socketId msg ∈ broadcastToRoom rooms r msg e := by
  simp only [broadcastToRoom, hr]
  refine List.mem_filterMap.mpr ⟨q, hq, ?_⟩
  simp [hne]

/-- Inversion: a delivered event goes to a member's socket, never the excluded one. -/
theorem broadcast_elim (rooms : List (String × RoomData)) (r : String) (msg : Msg)
    (e : Option String) (ev : OutEvent) (h : ev ∈ broadcastToRoom rooms r msg e) :
    ∃ room q, mapLookup rooms r = some room ∧ q ∈ room.members ∧
      ev = OutEvent.mk q.2.socketId msg ∧ e ≠ some q.2.socketId := by
  cases hr : mapLookup rooms r with
  | none =>
      simp only [broadcastToRoom, hr] at h
      simp at h
  | some room =>
      simp only [broadcastToRoom, hr, List.mem_filterMap] at h
      obtain ⟨q, hq, hf⟩ := h
      by_cases he : e = some q.2.socketId
      · simp [he] at hf
      · simp only [if_neg he] at hf
        exact ⟨room, q, rfl, hq, by injection hf with h2; exact h2.symm, he⟩

/-- With an excluded socket, nothing is ever delivered to it. -/
theorem broadcast_target_ne (rooms : List (String × RoomData)) (r : String) (msg : Msg)
    (ex : String) (ev : OutEvent) (h : ev ∈ broadcastToRoom rooms r msg (some ex)) :
    ev.target ≠ ex := by
  obtain ⟨room, q, _, _, hev, hne⟩ := broadcast_elim rooms r msg (some ex) ev h
  rw [hev]
  intro hc
  exact hne (congrArg some hc.symm)

/-- Every event the guarded leave emits is a member-left delta. -/
theorem leaveRoom_events_shape (t : ServerState) (r0 u0 cs : String) (ev : OutEvent)
    (h : ev ∈ (leaveRoom t r0 u0 cs).2) : ∃ x t0, ev.msg = Msg.memberLeft x t0 := by
  cases hr0 : mapLookup t.activeRooms r0 with
  | none =>
      simp only [leaveRoom, hr0] at h
      simp at h
  | some room0 =>
      cases hu0 : mapLookup room0.members u0 with
      | none =>
          simp only [leaveRoom, hr0, hu0] at h
          simp at h
      | some m0 =>
          by_cases hg : m0.socketId = cs
          · simp only [leaveRoom, hr0, hu0, if_pos hg] at h
            obtain ⟨room, q, _, _, hev, _⟩ := broadcast_elim _ _ _ _ _ h
            exact ⟨u0, t.now, by rw [hev]⟩
          · simp only [leaveRoom, hr0, hu0, if_neg hg] at h
            simp at h

/-- Members remaining after a guarded leave were members before. -/
theorem leaveRoom_members_subset (t : ServerState) (r r0 u0 cs : String)
    (hndr : keysNoDup t.activeRooms)
    (q : String × Member) (hq : q ∈ roomMembers (leaveRoom t r0 u0 cs).1 r) :
    q ∈ roomMembers t r := by
  cases hr0 : mapLookup t.activeRooms r0 with
  | none =>
      simpa only [leaveRoom, hr0] using hq
  | some room0 =>
      cases hu0 : mapLookup room0.members u0 with
      | none =>
          simpa only [leaveRoom, hr0, hu0] using hq
      | some m0 =>
          by_cases hg : m0.socketId = cs
          · simp only [leaveRoom, hr0, hu0, if_pos hg] at hq
            by_cases hrr : r0 = r
            · subst hrr
              simp only [roomMembers, hr0]
              by_cases he : mapDelete room0.members u0 = []
              · have hdel : cleanupRoom
                    (mapSet t.activeRooms r0 { room0 with members := mapDelete room0.members u0 }) r0 =
                    mapDelete (mapSet t.activeRooms r0
                      { room0 with members := mapDelete room0.members u0 }) r0 := by
                  unfold cleanupRoom
                  rw [mapLookup_set_self]
                  simp [he]
                simp only [roomMembers, hdel,
                  mapLookup_delete_self _ _ (keysNoDup_set _ _ _ hndr)] at hq
                simp at hq
              · rw [cleanupRoom_of_nonempty _ _ _ (mapLookup_set_self _ _ _) he] at hq
                simp only [roomMembers, mapLookup_set_self] at hq
                exact mapDelete_subset _ _ _ hq
            · have hne : r ≠ r0 := fun hh => hrr hh.symm
              simp only [roomMembers, cleanupRoom_lookup_ne _ r0 r hne,
                mapLookup_set_ne _ _ _ _ hne] at hq
              simpa only [roomMembers] using hq
          · simpa only [leaveRoom, hr0, hu0, if_neg hg] using hq

/-- A guarded leave supplying the stored socket id removes the member record. -/
theorem leaveRoom_removes (t : ServerState) (r0 u0 cm : String)
    (hm : memberSock t r0 u0 = some cm)
    (hndm : keysNoDup (roomMembers t r0)) (hndr : keysNoDup t.activeRooms) :
    memberSock (leaveRoom t r0 u0 cm).1 r0 u0 = none := by
  obtain ⟨room, m, hr, hu, hsock⟩ := memberSock_some_elim t r0 u0 cm hm
  have hndm' : keysNoDup room.members := by
    simpa only [roomMembers, hr] using hndm
  simp only [leaveRoom, hr, hu, if_pos hsock]
  by_cases he : mapDelete room.members u0 = []
  · have hdel : cleanupRoom
        (mapSet t.activeRooms r0 { room with members := mapDelete room.members u0 }) r0 =
        mapDelete (mapSet t.activeRooms r0
          { room with members := mapDelete room.members u0 }) r0 := by
      unfold cleanupRoom
      rw [mapLookup_set_self]
      simp [he]
    simp only [memberSock, roomMembers, hdel,
      mapLookup_delete_self _ _ (keysNoDup_set _ _ _ hndr), mapLookup]
    rfl
  · have hcl : cleanupRoom (mapSet t.activeRooms r0
        { room with members := mapDelete room.members u0 }) r0 =
        mapSet t.activeRooms r0 { room with members := mapDelete room.members u0 } :=
      cleanupRoom_of_nonempty _ _ { room with members := mapDelete room.members u0 }
        (mapLookup_set_self _ _ _) he
    simp only [memberSock, roomMembers, hcl, mapLookup_set_self,
      mapLookup_delete_self _ _ hndm']
    rfl

/-- A member list handed out by `getRoomData` is contained in the room's. -/
theorem getRoomData_members_sub (t : ServerState) (r : String) (q : String × Member)
    (hq : q ∈ (getRoomData t.activeRooms r).2.members) : q ∈ roomMembers t r := by
  unfold getRoomData at hq
  cases hl : mapLookup t.activeRooms r with
  | none =>
      rw [hl] at hq
      simp at hq
  | some room =>
      rw [hl] at hq
      simpa only [roomMembers, hl] using hq

/-- The symbols of the joined room after a join are the ones `getRoomData`
produced (a join never touches symbols). -/
theorem handleJoin_roomSymbols (s : ServerState) (c r u : String) (n : Option String) :
    roomSymbols (handleJoin s c r u n).1 r =
      (getRoomData (joinLeavePhase s c).1.activeRooms r).2.symbols := by
  simp [handleJoin, roomSymbols, mapLookup_set_self]

/-- A join leaves every other (room, user) member observation as the leave
phase left it. -/
theorem handleJoin_memberSock_pres (s : ServerState) (c r u : String) (n : Option String)
    (r0 u0 : String) (h : r0 ≠ r ∨ u0 ≠ u) :
    memberSock (handleJoin s c r u n).1 r0 u0 =
      memberSock (joinLeavePhase s c).1 r0 u0 := by
  by_cases hrr : r0 = r
  · subst hrr
    have huu : u0 ≠ u := by
      rcases h with h1 | h1
      · exact absurd rfl h1
      · exact h1
    simp only [handleJoin, memberSock, roomMembers, mapLookup_set_self,
      mapLookup_set_ne _ _ _ _ huu]
    unfold getRoomData
    cases hl : mapLookup (joinLeavePhase s c).1.activeRooms r0 with
    | none => simp [mapLookup]
    | some room => simp
  · simp only [handleJoin, memberSock, roomMembers,
      mapLookup_set_ne _ _ _ _ hrr]
    unfold getRoomData
    cases hl : mapLookup (joinLeavePhase s c).1.activeRooms r with
    | none => simp [mapLookup_set_ne _ _ _ _ hrr, hl]
    | some room => simp

/-- After the leave phase of a join, no member record of the target room can
still hold the joining socket (given the coordinator-consistency hypothesis
that a member holding socket `c` is the one `c` is bound to). -/
theorem roomMembers_leave_no_socket (s : ServerState) (c r : String)
    (hstale : ∀ q ∈ roomMembers s r, q.2.socketId = c →
      mapLookup s.bindings c = some (r, q.1))
    (hnd : keysNoDup (roomMembers s r)) (hndr : keysNoDup s.activeRooms) :
    ∀ q ∈ roomMembers (joinLeavePhase s c).1 r, q.2.socketId ≠ c := by
  intro q hq hqc
  cases hb : mapLookup s.bindings c with
  | none =>
      have hq0 : q ∈ roomMembers s r := by
        simpa only [joinLeavePhase, hb] using hq
      rw [hstale q hq0 hqc] at hb
      cases hb
  | some p =>
      obtain ⟨r0, u0⟩ := p
      have hq' : q ∈ roomMembers (leaveRoom s r0 u0 c).1 r := by
        simpa only [joinLeavePhase, hb] using hq
      have hq0 : q ∈ roomMembers s r := leaveRoom_members_subset s r r0 u0 c hndr q hq'
      have hbind := hstale q hq0 hqc
      rw [hb] at hbind
      obtain ⟨hr0, hu0⟩ : r0 = r ∧ u0 = q.1 := by
        have h1 := Option.some.inj hbind
        exact ⟨congrArg Prod.fst h1, congrArg Prod.snd h1⟩
      subst hr0
      subst hu0
      have hlk : mapLookup (roomMembers s r0) q.1 = some q.2 :=
        mapLookup_of_mem _ _ _ hnd hq0
      have hrem : memberSock (leaveRoom s r0 q.1 c).1 r0 q.1 = none := by
        apply leaveRoom_removes s r0 q.1 c _ hnd hndr
        simp [memberSock, hlk, hqc]
      have hndpost := leaveRoom_members_nodup s r0 r0 q.1 c hnd hndr
      have hlk' : mapLookup (roomMembers (leaveRoom s r0 q.1 c).1 r0) q.1 = some q.2 :=
        mapLookup_of_mem _ _ _ hndpost hq'
      have hcontra : memberSock (leaveRoom s r0 q.1 c).1 r0 q.1 = some q.2.socketId := by
        simp [memberSock, hlk']
      rw [hrem] at hcontra
      cases hcontra

/-- A non-empty member observation exposes the registered room. -/
theorem roomMembers_lookup_of_mem (t : ServerState) (r : String) (q : String × Member)
    (hq : q ∈ roomMembers t r) :
    ∃ room, mapLookup t.activeRooms r = some room ∧ room.members = roomMembers t r := by
  unfold roomMembers at hq ⊢
  cases hl : mapLookup t.activeRooms r with
  | none =>
      rw [hl] at hq
      simp at hq
  | some room => exact ⟨room, rfl, rfl⟩

/-- Every event the join's leave phase emits is a member-left delta. -/
theorem joinLeavePhase_events_shape (s : ServerState) (c : String) (ev : OutEvent)
    (h : ev ∈ (joinLeavePhase s c).2) : ∃ x t0, ev.msg = Msg.memberLeft x t0 := by
  cases hb : mapLookup s.bindings c with
  | none =>
      simp only [joinLeavePhase, hb] at h
      simp at h
  | some p =>
      obtain ⟨r0, u0⟩ := p
      simp only [joinLeavePhase, hb] at h
      exact leaveRoom_events_shape s r0 u0 c ev h

/-- Claim C4: a join first runs the leave cleanup for the connection's
previous binding and only then executes the new join (the emitted events are
the leave-phase events followed by the join events, and the previous member
record is gone afterwards); the joiner receives a full room snapshot that
already contains its own member record, plus a join acknowledgement; every
other member of the room receives the member-joined delta, and the joiner
never receives its own member-joined. -/
theorem claim4_join_protocol (s : ServerState) (c r u : String) (n : Option String)
    (hstale : ∀ q ∈ roomMembers s r, q.2.socketId = c →
      mapLookup s.bindings c = some (r, q.1))
    (hnd : keysNoDup (roomMembers s r))
    (hndr : keysNoDup s.activeRooms) :
    OutEvent.mk c (Msg.roomState
        ((roomMembers (step s (.join c r u n)).1 r).map fun q => memberView q.2)
        ((roomSymbols (step s (.join c r u n)).1 r).map Prod.snd)) ∈
      (step s (.join c r u n)).2 ∧
    memberView ⟨u, c, orUnknown n, true, s.now, none⟩ ∈
      ((roomMembers (step s (.join c r u n)).1 r).map fun q => memberView q.2) ∧
    OutEvent.mk c (Msg.joinRoomSuccess r u) ∈ (step s (.join c r u n)).2 ∧
    (∀ q ∈ roomMembers (step s (.join c r u n)).1 r, q.1 ≠ u →
      OutEvent.mk q.2.socketId (Msg.memberJoined u n true s.now) ∈
        (step s (.join c r u n)).2) ∧
    (∀ x nm b t0, OutEvent.mk c (Msg.memberJoined x nm b t0) ∉ (step s (.join c r u n)).2) ∧
    (step s (.join c r u n)).2 = (joinLeavePhase s c).2 ++
      (broadcastToRoom (step s (.join c r u n)).1.activeRooms r
        (Msg.memberJoined u n true s.now) (some c) ++
       [⟨c, Msg.roomState
          ((roomMembers (step s (.join c r u n)).1 r).map fun q => memberView q.2)
          ((roomSymbols (step s (.join c r u n)).1 r).map Prod.snd)⟩,
        ⟨c, Msg.joinRoomSuccess r u⟩]) ∧
    (∀ r0 u0, mapLookup s.bindings c = some (r0, u0) → memberSock s r0 u0 = some c →
      (r0 ≠ r ∨ u0 ≠ u) → keysNoDup (roomMembers s r0) →
      memberSock (step s (.join c r u n)).1 r0 u0 = none) := by
  have hmemb := handleJoin_roomMembers s c r u n
  have hsymb := handleJoin_roomSymbols s c r u n
  have hev : (step s (.join c r u n)).2 = (joinLeavePhase s c).2 ++
      (broadcastToRoom (step s (.join c r u n)).1.activeRooms r
        (Msg.memberJoined u n true s.now) (some c) ++
       [⟨c, Msg.roomState
          ((roomMembers (step s (.join c r u n)).1 r).map fun q => memberView q.2)
          ((roomSymbols (step s (.join c r u n)).1 r).map Prod.snd)⟩,
        ⟨c, Msg.joinRoomSuccess r u⟩]) := by
    simp only [step]
    rw [hmemb, hsymb]
    simp only [handleJoin]
    rw [List.append_assoc]
  refine ⟨?_, ?_, ?_, ?_, ?_, hev, ?_⟩
  · rw [hev]
    simp [List.mem_append]
  · simp only [step] at hmemb ⊢
    rw [hmemb]
    exact List.mem_map.mpr ⟨(u, ⟨u, c, orUnknown n, true, s.now, none⟩), mem_set_self _ _ _, rfl⟩
  · rw [hev]
    simp [List.mem_append]
  · intro q hq hqu
    obtain ⟨roomP, hrP, hmP⟩ := roomMembers_lookup_of_mem _ r q hq
    have hq' : q ∈ (getRoomData (joinLeavePhase s c).1.activeRooms r).2.members := by
      have hq2 : q ∈ roomMembers (handleJoin s c r u n).1 r := by
        simpa only [step] using hq
      rw [hmemb] at hq2
      rcases mem_set_elim _ _ _ _ hq2 with h1 | h1
      · exact absurd (congrArg Prod.fst h1) hqu
      · exact h1
    have hq1 : q ∈ roomMembers (joinLeavePhase s c).1 r :=
      getRoomData_members_sub _ r q hq'
    have hsc : q.2.socketId ≠ c :=
      roomMembers_leave_no_socket s c r hstale hnd hndr q hq1
    have hbc : OutEvent.mk q.2.socketId (Msg.memberJoined u n true s.now) ∈
        broadcastToRoom (step s (.join c r u n)).1.activeRooms r
          (Msg.memberJoined u n true s.now) (some c) := by
      apply mem_broadcast _ r _ (some c) roomP q hrP
      · rw [hmP]
        exact hq
      · intro hcc
        exact hsc (Option.some.inj hcc).symm
    rw [hev]
    exact List.mem_append.mpr (Or.inr (List.mem_append.mpr (Or.inl hbc)))
  · intro x nm b t0 hmem
    rw [hev] at hmem
    rcases List.mem_append.mp hmem with h1 | h1
    · obtain ⟨x', t0', hshape⟩ := joinLeavePhase_events_shape s c _ h1
      cases hshape
    · rcases List.mem_append.mp h1 with h2 | h2
      · exact broadcast_target_ne _ r _ c _ h2 rfl
      · rcases List.mem_cons.mp h2 with h3 | h3
        · cases h3
        · rcases List.mem_cons.mp h3 with h4 | h4
          · cases h4
          · simp at h4
  · intro r0 u0 hb hms hne0 hnd0
    have hpres := handleJoin_memberSock_pres s c r u n r0 u0 hne0
    simp only [step]
    rw [hpres]
    simp only [joinLeavePhase, hb]
    exact leaveRoom_removes s r0 u0 c hms hnd0 hndr

/-- Witness for C4: socket `c2` (already-bound case is exercised separately in
the C1 witness; here `c2` is fresh) joins room `R` as `U2` next to the
existing member `U`. -/
theorem claim4_witness :
    OutEvent.mk "c2" (Msg.roomState
        ((roomMembers (step claim7SState (.join "c2" "R" "U2" (some "bob"))).1 "R").map
          fun q => memberView q.2)
        ((roomSymbols (step claim7SState (.join "c2" "R" "U2" (some "bob"))).1 "R").map
          Prod.snd)) ∈
      (step claim7SState (.join "c2" "R" "U2" (some "bob"))).2 ∧
    memberView ⟨"U2", "c2", orUnknown (some "bob"), true, claim7SState.now, none⟩ ∈
      ((roomMembers (step claim7SState (.join "c2" "R" "U2" (some "bob"))).1 "R").map
        fun q => memberView q.2) ∧
    OutEvent.mk "c2" (Msg.joinRoomSuccess "R" "U2") ∈
      (step claim7SState (.join "c2" "R" "U2" (some "bob"))).2 ∧
    (∀ q ∈ roomMembers (step claim7SState (.join "c2" "R" "U2" (some "bob"))).1 "R",
      q.1 ≠ "U2" →
      OutEvent.mk q.2.socketId (Msg.memberJoined "U2" (some "bob") true claim7SState.now) ∈
        (step claim7SState (.join "c2" "R" "U2" (some "bob"))).2) ∧
    (∀ x nm b t0, OutEvent.mk "c2" (Msg.memberJoined x nm b t0) ∉
      (step claim7SState (.join "c2" "R" "U2" (some "bob"))).2) ∧
    (step claim7SState (.join "c2" "R" "U2" (some "bob"))).2 =
      (joinLeavePhase claim7SState "c2").2 ++
      (broadcastToRoom (step claim7SState (.join "c2" "R" "U2" (some "bob"))).1.activeRooms "R"
        (Msg.memberJoined "U2" (some "bob") true claim7SState.now) (some "c2") ++
       [⟨"c2", Msg.roomState
          ((roomMembers (step claim7SState (.join "c2" "R" "U2" (some "bob"))).1 "R").map
            fun q => memberView q.2)
          ((roomSymbols (step claim7SState (.join "c2" "R" "U2" (some "bob"))).1 "R").map
            Prod.snd)⟩,
        ⟨"c2", Msg.joinRoomSuccess "R" "U2"⟩]) ∧
    (∀ r0 u0, mapLookup claim7SState.bindings "c2" = some (r0, u0) →
      memberSock claim7SState r0 u0 = some "c2" →
      (r0 ≠ "R" ∨ u0 ≠ "U2") → keysNoDup (roomMembers claim7SState r0) →
      memberSock (step claim7SState (.join "c2" "R" "U2" (some "bob"))).1 r0 u0 = none) :=
  claim4_join_protocol claim7SState "c2" "R" "U2" (some "bob")
    (by decide) (by decide) (by decide)

/-- Claim C5 (amended): a position update from a bound connection whose
member record exists is never delivered back to the sending connection, and
is delivered exactly to the stored connections of the other member records of
the room (a connection that is still bound but whose member record was
superseded holds no member record and receives nothing — see the
counterexample for the original phrasing). -/
theorem claim5_amended_position_delivery (s : ServerState) (c r u : String)
    (p : UserPosition) (m0 : Member)
    (hb : mapLookup s.bindings c = some (r, u))
    (hm : mapLookup (roomMembers s r) u = some m0) :
    (∀ ev ∈ (step s (.position c p)).2, ev.target ≠ c) ∧
    (∀ q ∈ roomMembers (step s (.position c p)).1 r, q.2.socketId ≠ c →
      OutEvent.mk q.2.socketId (Msg.positionUpdate p) ∈ (step s (.position c p)).2) ∧
    (∀ ev ∈ (step s (.position c p)).2,
      ∃ q, q ∈ roomMembers (step s (.position c p)).1 r ∧
        ev = OutEvent.mk q.2.socketId (Msg.positionUpdate p) ∧ q.2.socketId ≠ c) := by
  obtain ⟨room, hr, hmm⟩ := roomMembers_lookup_of_mem s r (u, m0)
    (mem_of_mapLookup _ _ _ hm)
  have hmem' : mapLookup room.members u = some m0 := by
    rw [hmm]
    exact hm
  have hroomPost : roomMembers (step s (.position c p)).1 r =
      mapSet room.members u { m0 with position := some p, lastSeen := s.now } := by
    simp only [step, handlePosition, hb, getRoomData, hr, hmem', roomMembers,
      mapLookup_set_self]
  have hev : (step s (.position c p)).2 = broadcastToRoom
      (mapSet s.activeRooms r
        ({ room with members := mapSet room.members u ({ m0 with position := some p, lastSeen := s.now }) })) r
      (Msg.positionUpdate p) (some c) := by
    simp only [step, handlePosition, hb, getRoomData, hr, hmem']
  refine ⟨?_, ?_, ?_⟩
  · intro ev hmem2
    rw [hev] at hmem2
    exact broadcast_target_ne _ _ _ _ _ hmem2
  · intro q hq hqc
    rw [hroomPost] at hq
    rw [hev]
    apply mem_broadcast _ r _ (some c)
      ({ room with members := mapSet room.members u ({ m0 with position := some p, lastSeen := s.now }) }) q
      (mapLookup_set_self _ _ _) hq
    intro hcc
    exact hqc (Option.some.inj hcc).symm
  · intro ev hmem2
    rw [hev] at hmem2
    obtain ⟨room', q, hlk, hqmem, hevq, hne⟩ := broadcast_elim _ _ _ _ _ hmem2
    rw [mapLookup_set_self] at hlk
    have hroom' : room' = ({ room with members := mapSet room.members u ({ m0 with position := some p, lastSeen := s.now }) }) := (Option.some.inj hlk).symm
    refine ⟨q, ?_, hevq, ?_⟩
    · rw [hroomPost]
      rw [hroom'] at hqmem
      exact hqmem
    · intro hqc
      exact hne (congrArg some hqc.symm)

/-- Witness for the amended C5: member `U` on socket `c1` sends a position
update in the one-member room `R`. -/
theorem claim5_witness :
    (∀ ev ∈ (step claim7SState (.position "c1" ⟨7, 8⟩)).2, ev.target ≠ "c1") ∧
    (∀ q ∈ roomMembers (step claim7SState (.position "c1" ⟨7, 8⟩)).1 "R",
      q.2.socketId ≠ "c1" →
      OutEvent.mk q.2.socketId (Msg.positionUpdate ⟨7, 8⟩) ∈
        (step claim7SState (.position "c1" ⟨7, 8⟩)).2) ∧
    (∀ ev ∈ (step claim7SState (.position "c1" ⟨7, 8⟩)).2,
      ∃ q, q ∈ roomMembers (step claim7SState (.position "c1" ⟨7, 8⟩)).1 "R" ∧
        ev = OutEvent.mk q.2.socketId (Msg.positionUpdate ⟨7, 8⟩) ∧ q.2.socketId ≠ "c1") :=
  claim5_amended_position_delivery claim7SState "c1" "R" "U" ⟨7, 8⟩
    { userId := "U", socketId := "c1", username := "alice", isOnline := true
      lastSeen := 2, position := none }
    (by decide) (by decide)

/-- The trace refuting C5 as stated: `c1` is superseded by `c2` (same user),
then a third member sends a position update; `c1` is still bound to `R` but
receives nothing. -/
def trace5 : List InEvent :=
  [.join "c1" "R" "U" none, .join "c2" "R" "U" none, .join "c3" "R" "U3" none,
   .position "c3" ⟨5, 6⟩]

/-- Counterexample to C5 as stated: after `trace5`, connection `c1` is
currently bound to room `R`, the position delta was delivered (to `c2`), yet
`c1` never receives it — so "delivered to every other currently-bound
connection in the same room" is false of the code. -/
theorem claim5_counterexample :
    mapLookup (run state0 trace5).1.bindings "c1" = some ("R", "U") ∧
    (∀ ev ∈ (run state0 trace5).2, ev ≠ OutEvent.mk "c1" (Msg.positionUpdate ⟨5, 6⟩)) ∧
    OutEvent.mk "c2" (Msg.positionUpdate ⟨5, 6⟩) ∈ (run state0 trace5).2 := by
  decide

/-- Claim C6 (amended): a symbolCreate from a bound connection whose member
record still holds its socket inserts, under the supplied fresh id, a symbol
whose creation and update timestamps are the processing time and whose
`color` and `rotation` are taken verbatim from the payload (absent when not
supplied — the server applies no "#FF0000"/0 defaulting), broadcasts
`symbol_created` with exactly that symbol to every member of the room
including the sender, and leaves all other stored symbols unchanged. -/
theorem claim6_amended_symbol_create (s : ServerState) (c r u fid : String)
    (fields : SymbolCreateFields) (m0 : Member)
    (hb : mapLookup s.bindings c = some (r, u))
    (hm : mapLookup (roomMembers s r) u = some m0)
    (hms : m0.socketId = c) :
    mapLookup (roomSymbols (step s (.symbolCreate c fid fields)).1 r) fid =
      some (mkSymbol fields fid s.now) ∧
    (mkSymbol fields fid s.now).id = fid ∧
    (mkSymbol fields fid s.now).createdAt = s.now ∧
    (mkSymbol fields fid s.now).updatedAt = s.now ∧
    (mkSymbol fields fid s.now).color = fields.color ∧
    (mkSymbol fields fid s.now).rotation = fields.rotation ∧
    OutEvent.mk c (Msg.symbolCreated (mkSymbol fields fid s.now)) ∈
      (step s (.symbolCreate c fid fields)).2 ∧
    (∀ q ∈ roomMembers (step s (.symbolCreate c fid fields)).1 r,
      OutEvent.mk q.2.socketId (Msg.symbolCreated (mkSymbol fields fid s.now)) ∈
        (step s (.symbolCreate c fid fields)).2) ∧
    (∀ k, k ≠ fid →
      mapLookup (roomSymbols (step s (.symbolCreate c fid fields)).1 r) k =
        mapLookup (roomSymbols s r) k) := by
  obtain ⟨room, hr, hmm⟩ := roomMembers_lookup_of_mem s r (u, m0)
    (mem_of_mapLookup _ _ _ hm)
  have hroomPost : roomMembers (step s (.symbolCreate c fid fields)).1 r = room.members := by
    simp only [step, handleSymbolCreate, hb, getRoomData, hr, roomMembers,
      mapLookup_set_self]
  have hsymPost : roomSymbols (step s (.symbolCreate c fid fields)).1 r =
      mapSet room.symbols fid (mkSymbol fields fid s.now) := by
    simp only [step, handleSymbolCreate, hb, getRoomData, hr, roomSymbols,
      mapLookup_set_self]
  have hev : (step s (.symbolCreate c fid fields)).2 = broadcastToRoom
      (mapSet s.activeRooms r
        { room with symbols := mapSet room.symbols fid (mkSymbol fields fid s.now) }) r
      (Msg.symbolCreated (mkSymbol fields fid s.now)) none := by
    simp only [step, handleSymbolCreate, hb, getRoomData, hr]
  refine ⟨?_, rfl, rfl, rfl, rfl, rfl, ?_, ?_, ?_⟩
  · rw [hsymPost]
    exact mapLookup_set_self _ _ _
  · rw [hev]
    have := mem_broadcast
      (mapSet s.activeRooms r
        { room with symbols := mapSet room.symbols fid (mkSymbol fields fid s.now) }) r
      (Msg.symbolCreated (mkSymbol fields fid s.now)) none
      { room with symbols := mapSet room.symbols fid (mkSymbol fields fid s.now) }
      (u, m0) (mapLookup_set_self _ _ _) (by
        show (u, m0) ∈ room.members
        rw [hmm]
        exact mem_of_mapLookup _ _ _ hm) (by simp)
    rw [hms] at this
    exact this
  · intro q hq
    rw [hroomPost] at hq
    rw [hev]
    exact mem_broadcast _ r _ none
      { room with symbols := mapSet room.symbols fid (mkSymbol fields fid s.now) } q
      (mapLookup_set_self _ _ _) hq (by simp)
  · intro k hk
    rw [hsymPost, mapLookup_set_ne _ _ _ _ hk]
    simp only [roomSymbols, hr]

/-- The trace refuting the defaulting part of C6: a bound member creates a
symbol whose payload supplies neither `color` nor `rotation`. -/
def trace6 : List InEvent :=
  [.join "c1" "R" "U" none, .symbolCreate "c1" "sym1" sampleCreateFields]

/-- Counterexample to C6 as stated: the stored and broadcast symbol has no
color and no rotation — the server does not default them to "#FF0000" / 0
(the zod schema defaults exist only in the HTTP validation layer, which the
realtime path never invokes). -/
theorem claim6_counterexample :
    (mapLookup (roomSymbols (run state0 trace6).1 "R") "sym1").map TacticalSymbol.color =
      some none ∧
    (mapLookup (roomSymbols (run state0 trace6).1 "R") "sym1").map TacticalSymbol.rotation =
      some none ∧
    OutEvent.mk "c1" (Msg.symbolCreated (mkSymbol sampleCreateFields "sym1" 1)) ∈
      (run state0 trace6).2 := by
  decide

/-- Witness for the amended C6 at a concrete state (member `U` on socket `c1`
creates `sym2` with no color/rotation in the payload). -/
theorem claim6_witness :
    mapLookup (roomSymbols (step claim7SState (.symbolCreate "c1" "sym2" sampleCreateFields)).1 "R")
      "sym2" = some (mkSymbol sampleCreateFields "sym2" claim7SState.now) ∧
    (mkSymbol sampleCreateFields "sym2" claim7SState.now).id = "sym2" ∧
    (mkSymbol sampleCreateFields "sym2" claim7SState.now).createdAt = claim7SState.now ∧
    (mkSymbol sampleCreateFields "sym2" claim7SState.now).updatedAt = claim7SState.now ∧
    (mkSymbol sampleCreateFields "sym2" claim7SState.now).color = sampleCreateFields.color ∧
    (mkSymbol sampleCreateFields "sym2" claim7SState.now).rotation = sampleCreateFields.rotation ∧
    OutEvent.mk "c1" (Msg.symbolCreated (mkSymbol sampleCreateFields "sym2" claim7SState.now)) ∈
      (step claim7SState (.symbolCreate "c1" "sym2" sampleCreateFields)).2 ∧
    (∀ q ∈ roomMembers (step claim7SState (.symbolCreate "c1" "sym2" sampleCreateFields)).1 "R",
      OutEvent.mk q.2.socketId
        (Msg.symbolCreated (mkSymbol sampleCreateFields "sym2" claim7SState.now)) ∈
        (step claim7SState (.symbolCreate "c1" "sym2" sampleCreateFields)).2) ∧
    (∀ k, k ≠ "sym2" →
      mapLookup (roomSymbols (step claim7SState (.symbolCreate "c1" "sym2" sampleCreateFields)).1 "R") k =
        mapLookup (roomSymbols claim7SState "R") k) :=
  claim6_amended_symbol_create claim7SState "c1" "R" "U" "sym2" sampleCreateFields
    { userId := "U", socketId := "c1", username := "alice", isOnline := true
      lastSeen := 2, position := none }
    (by decide) (by decide) (by decide)

/-- Recognizer for error events (used by decidable trace statements). -/
def isErrorMsg : Msg → Bool
  | .errorMsg _ => true
  | _ => false

/-- Recognizer for symbol-deleted events. -/
def isSymbolDeleted : Msg → Bool
  | .symbolDeleted _ => true
  | _ => false

/-- The trace exhibiting the empty-room re-creation: `c1` is superseded by
`c2`, `c2` disconnects (room `R` is reclaimed), then the stale-bound `c1`
sends a position update. -/
def trace2 : List InEvent :=
  [.join "c1" "R" "U" none, .join "c2" "R" "U" none, .disconnect "c2",
   .position "c1" ⟨1, 2⟩]

/-- Claim C2 (code bug): after `trace2`, room `R` — which had been correctly
reclaimed by the disconnect (second conjunct: absent after the 3-event
prefix) — is present in the registry again with an empty member map and no
symbols, violating "a room id is present iff its member mapping is
non-empty". The slip is `getRoomData`'s create-on-get on the read path of
`position_update`. -/
theorem claim2_bug_empty_room_retained :
    mapLookup (run state0 [.join "c1" "R" "U" none, .join "c2" "R" "U" none,
      .disconnect "c2"]).1.activeRooms "R" = none ∧
    mapLookup (run state0 trace2).1.activeRooms "R" =
      some { id := "R", members := [], symbols := [] } := by
  decide

/-- The trace exhibiting the registry mutation on a failed symbol delete:
same prefix as `trace2`, then the stale-bound `c1` deletes a non-existent
symbol id. -/
def trace8 : List InEvent :=
  [.join "c1" "R" "U" none, .join "c2" "R" "U" none, .disconnect "c2",
   .symbolDelete "c1" "X"]

/-- Claim C8 (code bug): the failed delete does emit the SymbolNotFound-kind
error to the sender only and broadcasts no `symbol_deleted` — but it does NOT
leave the registry unchanged: room `R` was absent before the delete (first
conjunct) and present-but-empty after it (second conjunct), because the
handler reads the room through create-on-get `getRoomData`. -/
theorem claim8_bug_failed_delete_mutates :
    mapLookup (run state0 [.join "c1" "R" "U" none, .join "c2" "R" "U" none,
      .disconnect "c2"]).1.activeRooms "R" = none ∧
    mapLookup (run state0 trace8).1.activeRooms "R" =
      some { id := "R", members := [], symbols := [] } ∧
    OutEvent.mk "c1" (Msg.errorMsg "Symbol not found") ∈ (run state0 trace8).2 ∧
    (∀ ev ∈ (run state0 trace8).2, isSymbolDeleted ev.msg = false) ∧
    (∀ ev ∈ (run state0 trace8).2, isErrorMsg ev.msg = true → ev.target = "c1") := by
  decide

/-- The trace refuting C3 as stated: two connections join as the same user. -/
def trace3 : List InEvent := [.join "c1" "R" "U" none, .join "c2" "R" "U" none]

/-- Counterexample to C3 as stated: after `trace3` room `R` has one member
record but two connections currently bound to it (`c1` was superseded but
stays bound), so the member count does not equal the bound-connection count. -/
theorem claim3_counterexample :
    memberCountOf (run state0 trace3).1 "R" = 1 ∧
    boundCount (run state0 trace3).1 "R" = 2 ∧
    memberCountOf (run state0 trace3).1 "R" ≠ boundCount (run state0 trace3).1 "R" := by
  decide

/-! ### The supersede-free invariant for C3 -/

/-- C3 quantifies over sequences of join and leave/disconnect events. -/
def isJoinOrLeave : InEvent → Bool
  | .join _ _ _ _ => true
  | .disconnect _ => true
  | _ => false

/-- Every event of the trace is a join or a leave/disconnect. -/
def onlyJoinLeave (T : List InEvent) : Bool := T.all isJoinOrLeave

/-- The next event does not supersede: a join may only use a (room, user)
pair that no other live connection is currently bound to. -/
def noSupersede (s : ServerState) : InEvent → Bool
  | .join c r u _ => s.bindings.all fun q => decide (q.2 = (r, u) → q.1 = c)
  | _ => true

/-- The whole trace is supersede-free along its own execution. -/
def supFree : ServerState → List InEvent → Bool
  | _, [] => true
  | s, e :: es => noSupersede s e && supFree (tick (step s e).1) es

/-- The coordinator/registry consistency invariant: all key sets are
duplicate-free, every binding points at a member record storing that socket,
and every member record's socket is bound to exactly that (room, user). -/
def Inv (s : ServerState) : Prop :=
  keysNoDup s.bindings ∧ keysNoDup s.activeRooms ∧
  (∀ q ∈ s.activeRooms, keysNoDup q.2.members) ∧
  (∀ c r u, mapLookup s.bindings c = some (r, u) → memberSock s r u = some c) ∧
  (∀ r room u m, mapLookup s.activeRooms r = some room →
    mapLookup room.members u = some m → mapLookup s.bindings m.socketId = some (r, u))

/-- The invariant holds at process start. -/
theorem inv_state0 : Inv state0 := by
  refine ⟨by simp [keysNoDup, state0], by simp [keysNoDup, state0], ?_, ?_, ?_⟩
  · intro q hq
    simp [state0] at hq
  · intro c r u h
    simp [state0, mapLookup] at h
  · intro r room u m h _
    simp [state0, mapLookup] at h

/-- Per-room member-key distinctness, read off the invariant's third part. -/
theorem roomMembers_nodup_of_all (s : ServerState)
    (hmnd : ∀ q ∈ s.activeRooms, keysNoDup q.2.members) (r : String) :
    keysNoDup (roomMembers s r) := by
  unfold roomMembers
  cases hl : mapLookup s.activeRooms r with
  | none => simp [keysNoDup]
  | some room => exact hmnd (r, room) (mem_of_mapLookup _ _ _ hl)

/-- A filter over a list none of whose elements satisfy it is empty. -/
theorem filter_nil_of_none {A : Type} (p : A → Bool) (l : List A)
    (h : ∀ a ∈ l, p a = false) : l.filter p = [] := by
  induction l with
  | nil => rfl
  | cons a t ih =>
      have ha := h a (List.mem_cons_self a t)
      simp only [List.filter, ha]
      exact ih fun b hb => h b (List.mem_cons_of_mem _ hb)

/-- Under the invariant, the snapshot member count of any room equals the
number of connections bound to it. -/
theorem count_eq_of_inv (s : ServerState) (hinv : Inv s) (r : String) :
    memberCountOf s r = boundCount s r := by
  obtain ⟨hbnd, hrnd, hmnd, hA, hB⟩ := hinv
  cases hlk : mapLookup s.activeRooms r with
  | none =>
      have hfil : (s.bindings.filter fun q => decide (q.2.1 = r)) = [] := by
        apply filter_nil_of_none
        intro q hq
        by_cases hqr : q.2.1 = r
        · exfalso
          have hlkq : mapLookup s.bindings q.1 = some q.2 :=
            mapLookup_of_mem _ _ _ hbnd hq
          have hms := hA q.1 q.2.1 q.2.2 hlkq
          obtain ⟨room, m, hroom, _, _⟩ := memberSock_some_elim s q.2.1 q.2.2 q.1 hms
          rw [hqr] at hroom
          rw [hlk] at hroom
          cases hroom
        · simp [hqr]
      unfold memberCountOf boundCount roomMembers
      rw [hlk, hfil]
      rfl
  | some room =>
      have hmem_nodup : keysNoDup room.members := hmnd (r, room) (mem_of_mapLookup _ _ _ hlk)
      have hmembers_nodup : room.members.Nodup := List.Nodup.of_map _ hmem_nodup
      -- the socket list of the members and the key list of the bindings
      -- bound to `r` contain the same strings, and both are duplicate-free
      have hsub1 : (room.members.map fun q => q.2.socketId) ⊆
          ((s.bindings.filter fun q => decide (q.2.1 = r)).map Prod.fst) := by
        intro x hx
        obtain ⟨q, hq, hqx⟩ := List.mem_map.mp hx
        have hlkq : mapLookup room.members q.1 = some q.2 :=
          mapLookup_of_mem _ _ _ hmem_nodup hq
        have hbq := hB r room q.1 q.2 hlk hlkq
        refine List.mem_map.mpr ⟨(q.2.socketId, (r, q.1)), ?_, hqx⟩
        exact List.mem_filter.mpr ⟨mem_of_mapLookup _ _ _ hbq, by simp⟩
      have hsub2 : ((s.bindings.filter fun q => decide (q.2.1 = r)).map Prod.fst) ⊆
          (room.members.map fun q => q.2.socketId) := by
        intro x hx
        obtain ⟨q, hq, hqx⟩ := List.mem_map.mp hx
        obtain ⟨hqmem, hqr⟩ := List.mem_filter.mp hq
        have hqr' : q.2.1 = r := by simpa using hqr
        have hlkq : mapLookup s.bindings q.1 = some q.2 :=
          mapLookup_of_mem _ _ _ hbnd hqmem
        have hms := hA q.1 q.2.1 q.2.2 hlkq
        obtain ⟨room', m, hroom', hm', hsock⟩ := memberSock_some_elim s q.2.1 q.2.2 q.1 hms
        rw [hqr'] at hroom'
        rw [hlk] at hroom'
        have hrr : room' = room := by
          injection hroom' with h
          exact h.symm
        subst hrr
        refine List.mem_map.mpr ⟨(q.2.2, m), mem_of_mapLookup _ _ _ hm', ?_⟩
        rw [hsock, hqx]
      have hnod1 : (room.members.map fun q => q.2.socketId).Nodup := by
        apply List.Nodup.map_on ?_ hmembers_nodup
        intro q1 hq1 q2 hq2 heq
        have hl1 : mapLookup room.members q1.1 = some q1.2 :=
          mapLookup_of_mem _ _ _ hmem_nodup hq1
        have hl2 : mapLookup room.members q2.1 = some q2.2 :=
          mapLookup_of_mem _ _ _ hmem_nodup hq2
        have hb1 := hB r room q1.1 q1.2 hlk hl1
        have hb2 := hB r room q2.1 q2.2 hlk hl2
        rw [heq] at hb1
        rw [hb2] at hb1
        have hu12 : q1.1 = q2.1 := congrArg Prod.snd (Option.some.inj hb1).symm
        rw [hu12] at hl1
        rw [hl2] at hl1
        have hv12 : q2.2 = q1.2 := by injection hl1
        cases q1
        cases q2
        simp_all
      have hnod2 : ((s.bindings.filter fun q => decide (q.2.1 = r)).map Prod.fst).Nodup :=
        List.Nodup.sublist (List.Sublist.map _ (List.filter_sublist _)) hbnd
      have hlen1 := (List.subperm_of_subset hnod1 hsub1).length_le
      have hlen2 := (List.subperm_of_subset hnod2 hsub2).length_le
      have hlen : (room.members.map fun q => q.2.socketId).length =
          ((s.bindings.filter fun q => decide (q.2.1 = r)).map Prod.fst).length :=
        Nat.le_antisymm hlen1 hlen2
      unfold memberCountOf boundCount roomMembers
      rw [hlk]
      calc room.members.length
          = (room.members.map fun q => q.2.socketId).length := (List.length_map _ _).symm
        _ = ((s.bindings.filter fun q => decide (q.2.1 = r)).map Prod.fst).length := hlen
        _ = (s.bindings.filter fun q => decide (q.2.1 = r)).length := List.length_map _ _

/-- Facts about the state after a bound connection's guarded leave: other
bindings keep their member records, every surviving member is still
binding-consistent and none of them holds the leaving socket, and all key
sets stay duplicate-free. -/
theorem leave_after_facts (s : ServerState) (c r0 u0 : String)
    (hinv : Inv s) (hb : mapLookup s.bindings c = some (r0, u0)) :
    (∀ c' r' u', c' ≠ c → mapLookup s.bindings c' = some (r', u') →
      memberSock (leaveRoom s r0 u0 c).1 r' u' = some c') ∧
    (∀ r' room' u' m', mapLookup (leaveRoom s r0 u0 c).1.activeRooms r' = some room' →
      mapLookup room'.members u' = some m' →
      mapLookup s.bindings m'.socketId = some (r', u') ∧ m'.socketId ≠ c) ∧
    keysNoDup (leaveRoom s r0 u0 c).1.activeRooms ∧
    (∀ q ∈ (leaveRoom s r0 u0 c).1.activeRooms, keysNoDup q.2.members) := by
  obtain ⟨hbnd, hrnd, hmnd, hA, hB⟩ := hinv
  have hms0 : memberSock s r0 u0 = some c := hA c r0 u0 hb
  have hrem : memberSock (leaveRoom s r0 u0 c).1 r0 u0 = none :=
    leaveRoom_removes s r0 u0 c hms0 (roomMembers_nodup_of_all s hmnd r0) hrnd
  have hrooms_nodup : keysNoDup (leaveRoom s r0 u0 c).1.activeRooms :=
    leaveRoom_rooms_nodup s r0 u0 c hrnd
  have hmembers_nodup : ∀ q ∈ (leaveRoom s r0 u0 c).1.activeRooms,
      keysNoDup q.2.members := by
    intro q hq
    have hlkq : mapLookup (leaveRoom s r0 u0 c).1.activeRooms q.1 = some q.2 :=
      mapLookup_of_mem _ _ _ hrooms_nodup hq
    have hrmq : roomMembers (leaveRoom s r0 u0 c).1 q.1 = q.2.members := by
      simp [roomMembers, hlkq]
    rw [← hrmq]
    exact leaveRoom_members_nodup s q.1 r0 u0 c (roomMembers_nodup_of_all s hmnd q.1) hrnd
  refine ⟨?_, ?_, hrooms_nodup, hmembers_nodup⟩
  · intro c' r' u' hcc hlk'
    exact leaveRoom_preserves_member s r' u' r0 u0 c c' (hA c' r' u' hlk')
      (Or.inr fun h => hcc h.symm)
  · intro r' room' u' m' hlkr hlkm
    have hmem_post : (u', m') ∈ roomMembers (leaveRoom s r0 u0 c).1 r' := by
      have hrm : roomMembers (leaveRoom s r0 u0 c).1 r' = room'.members := by
        simp [roomMembers, hlkr]
      rw [hrm]
      exact mem_of_mapLookup _ _ _ hlkm
    have hmem_pre : (u', m') ∈ roomMembers s r' :=
      leaveRoom_members_subset s r' r0 u0 c hrnd _ hmem_post
    obtain ⟨roomPre, hlkPre, hmemPre⟩ := roomMembers_lookup_of_mem s r' _ hmem_pre
    have hlkmPre : mapLookup roomPre.members u' = some m' := by
      rw [hmemPre]
      exact mapLookup_of_mem _ _ _ (roomMembers_nodup_of_all s hmnd r') hmem_pre
    have hbindm := hB r' roomPre u' m' hlkPre hlkmPre
    refine ⟨hbindm, ?_⟩
    intro hsc
    rw [hsc, hb] at hbindm
    have hru : r0 = r' ∧ u0 = u' := by
      have h1 := Option.some.inj hbindm
      exact ⟨congrArg Prod.fst h1, congrArg Prod.snd h1⟩
    obtain ⟨hr0', hu0'⟩ := hru
    subst hr0'
    subst hu0'
    have hcontra : memberSock (leaveRoom s r0 u0 c).1 r0 u0 = some m'.socketId := by
      simp [memberSock, roomMembers, hlkr, hlkm]
    rw [hrem] at hcontra
    cases hcontra

/-- An entry of `getRoomData`'s room table is an old entry or the fresh empty room. -/
theorem getRoomData_fst_mem_elim (rooms : List (String × RoomData)) (r : String)
    (q : String × RoomData) (hq : q ∈ (getRoomData rooms r).1) :
    q ∈ rooms ∨ q = (r, { id := r, members := [], symbols := [] }) := by
  unfold getRoomData at hq
  cases hl : mapLookup rooms r with
  | some room =>
      rw [hl] at hq
      exact Or.inl hq
  | none =>
      rw [hl] at hq
      rcases mem_set_elim _ _ _ _ hq with h1 | h1
      · exact Or.inr h1
      · exact Or.inl h1

/-- The invariant is preserved by a supersede-free join. -/
theorem inv_join (s : ServerState) (c r u : String) (n : Option String)
    (hinv : Inv s) (hsf : noSupersede s (.join c r u n) = true) :
    Inv (step s (.join c r u n)).1 := by
  obtain ⟨hbnd, hrnd, hmnd, hA, hB⟩ := hinv
  have hsf' : ∀ q ∈ s.bindings, q.2 = (r, u) → q.1 = c := by
    intro q hq hq2
    exact of_decide_eq_true (List.all_eq_true.mp hsf q hq) hq2
  have hfacts :
      ((joinLeavePhase s c).1.bindings = s.bindings) ∧
      (∀ c' r' u', c' ≠ c → mapLookup s.bindings c' = some (r', u') →
        memberSock (joinLeavePhase s c).1 r' u' = some c') ∧
      (∀ r' room' u' m', mapLookup (joinLeavePhase s c).1.activeRooms r' = some room' →
        mapLookup room'.members u' = some m' →
        mapLookup s.bindings m'.socketId = some (r', u') ∧ m'.socketId ≠ c) ∧
      keysNoDup (joinLeavePhase s c).1.activeRooms ∧
      (∀ q ∈ (joinLeavePhase s c).1.activeRooms, keysNoDup q.2.members) := by
    cases hbc : mapLookup s.bindings c with
    | none =>
        have hid : (joinLeavePhase s c).1 = s := by simp [joinLeavePhase, hbc]
        rw [hid]
        refine ⟨rfl, ?_, ?_, hrnd, hmnd⟩
        · intro c' r' u' _ hlk'
          exact hA c' r' u' hlk'
        · intro r' room' u' m' hlkr hlkm
          refine ⟨hB r' room' u' m' hlkr hlkm, ?_⟩
          intro hsc
          have hcb := hB r' room' u' m' hlkr hlkm
          rw [hsc, hbc] at hcb
          cases hcb
    | some p =>
        obtain ⟨r0, u0⟩ := p
        have hjlp : (joinLeavePhase s c).1 = (leaveRoom s r0 u0 c).1 := by
          simp [joinLeavePhase, hbc]
        obtain ⟨hf1, hf2, hf3, hf4⟩ :=
          leave_after_facts s c r0 u0 ⟨hbnd, hrnd, hmnd, hA, hB⟩ hbc
        rw [hjlp]
        exact ⟨hjlp ▸ leaveRoom_bindings s r0 u0 c, hf1, hf2, hf3, hf4⟩
  obtain ⟨hf0, hf1, hf2, hf3, hf4⟩ := hfacts
  have hbindings : (step s (.join c r u n)).1.bindings = mapSet s.bindings c (r, u) := by
    simpa only [step] using handleJoin_bindings s c r u n
  refine ⟨?_, ?_, ?_, ?_, ?_⟩
  · rw [hbindings]
    exact keysNoDup_set _ _ _ hbnd
  · simp only [step, handleJoin]
    exact keysNoDup_set _ _ _ (getRoomData_rooms_nodup _ _ hf3)
  · intro q hq
    simp only [step, handleJoin] at hq
    rcases mem_set_elim _ _ _ _ hq with h1 | h1
    · rw [h1]
      exact keysNoDup_set _ _ _ (getRoomData_members_nodup _ _
        (roomMembers_nodup_of_all (joinLeavePhase s c).1 hf4 r))
    · rcases getRoomData_fst_mem_elim _ _ _ h1 with h2 | h2
      · exact hf4 q h2
      · rw [h2]
        simp [keysNoDup]
  · intro c' r' u' hlk'
    rw [hbindings] at hlk'
    by_cases hcc : c' = c
    · subst hcc
      rw [mapLookup_set_self] at hlk'
      have hru : r' = r ∧ u' = u := by
        have h1 := Option.some.inj hlk'
        exact ⟨(congrArg Prod.fst h1).symm, (congrArg Prod.snd h1).symm⟩
      obtain ⟨h1, h2⟩ := hru
      subst h1
      subst h2
      simpa only [step] using handleJoin_memberSock s c' r' u' n
    · rw [mapLookup_set_ne _ _ _ _ hcc] at hlk'
      have hor : r' ≠ r ∨ u' ≠ u := by
        by_cases h1 : r' = r
        · right
          intro h2
          apply hcc
          apply hsf' (c', (r', u')) (mem_of_mapLookup _ _ _ hlk')
          rw [h1, h2]
        · left
          exact h1
      have hpres := handleJoin_memberSock_pres s c r u n r' u' hor
      simp only [step]
      rw [hpres]
      exact hf1 c' r' u' hcc hlk'
  · intro r' room' u' m' hlkr hlkm
    rw [hbindings]
    simp only [step, handleJoin] at hlkr
    by_cases hrr : r' = r
    · subst hrr
      rw [mapLookup_set_self] at hlkr
      have hroom' : room' = { (getRoomData (joinLeavePhase s c).1.activeRooms r').2 with
          members := mapSet (getRoomData (joinLeavePhase s c).1.activeRooms r').2.members u
            ⟨u, c, orUnknown n, true, s.now, none⟩ } := (Option.some.inj hlkr).symm
      rw [hroom'] at hlkm
      simp only at hlkm
      by_cases huu : u' = u
      · subst huu
        rw [mapLookup_set_self] at hlkm
        have hm' : m' = ⟨u', c, orUnknown n, true, s.now, none⟩ := (Option.some.inj hlkm).symm
        rw [hm']
        exact mapLookup_set_self _ _ _
      · rw [mapLookup_set_ne _ _ _ _ huu] at hlkm
        have hmem1 : (u', m') ∈ roomMembers (joinLeavePhase s c).1 r' :=
          getRoomData_members_sub _ _ _ (mem_of_mapLookup _ _ _ hlkm)
        obtain ⟨roomPre, hlkPre, hmemPre⟩ := roomMembers_lookup_of_mem _ r' _ hmem1
        have hlkmPre : mapLookup roomPre.members u' = some m' := by
          rw [hmemPre]
          exact mapLookup_of_mem _ _ _ (roomMembers_nodup_of_all _ hf4 r') hmem1
        obtain ⟨hb2, hc2⟩ := hf2 r' roomPre u' m' hlkPre hlkmPre
        rw [mapLookup_set_ne _ _ _ _ hc2]
        exact hb2
    · rw [mapLookup_set_ne _ _ _ _ hrr] at hlkr
      have hlkr' : mapLookup (joinLeavePhase s c).1.activeRooms r' = some room' := by
        revert hlkr
        unfold getRoomData
        cases hl : mapLookup (joinLeavePhase s c).1.activeRooms r with
        | some room => intro h; exact h
        | none =>
            intro h
            rwa [mapLookup_set_ne _ _ _ _ hrr] at h
      obtain ⟨hb2, hc2⟩ := hf2 r' room' u' m' hlkr' hlkm
      rw [mapLookup_set_ne _ _ _ _ hc2]
      exact hb2

/-- The invariant is preserved by any disconnect. -/
theorem inv_disc (s : ServerState) (c : String) (hinv : Inv s) :
    Inv (step s (.disconnect c)).1 := by
  obtain ⟨hbnd, hrnd, hmnd, hA, hB⟩ := hinv
  cases hbc : mapLookup s.bindings c with
  | none =>
      have hstep : (step s (.disconnect c)).1 =
          { s with bindings := mapDelete s.bindings c } := by
        simp [step, handleDisconnect, hbc]
      rw [hstep]
      refine ⟨keysNoDup_delete _ _ hbnd, hrnd, hmnd, ?_, ?_⟩
      · intro c' r' u' hlk'
        by_cases hcc : c' = c
        · subst hcc
          rw [mapLookup_delete_self _ _ hbnd] at hlk'
          cases hlk'
        · rw [mapLookup_delete_ne _ _ _ hcc] at hlk'
          exact hA c' r' u' hlk'
      · intro r' room' u' m' hlkr hlkm
        have hb2 := hB r' room' u' m' hlkr hlkm
        have hsc : m'.socketId ≠ c := by
          intro hsc
          rw [hsc, hbc] at hb2
          cases hb2
        rw [mapLookup_delete_ne _ _ _ hsc]
        exact hb2
  | some p =>
      obtain ⟨r0, u0⟩ := p
      have hstep : (step s (.disconnect c)).1 =
          { (leaveRoom s r0 u0 c).1 with
              bindings := mapDelete (leaveRoom s r0 u0 c).1.bindings c } := by
        simp [step, handleDisconnect, hbc]
      obtain ⟨hf1, hf2, hf3, hf4⟩ :=
        leave_after_facts s c r0 u0 ⟨hbnd, hrnd, hmnd, hA, hB⟩ hbc
      have hlb : (leaveRoom s r0 u0 c).1.bindings = s.bindings := leaveRoom_bindings s r0 u0 c
      rw [hstep]
      refine ⟨?_, hf3, hf4, ?_, ?_⟩
      · rw [hlb]
        exact keysNoDup_delete _ _ hbnd
      · intro c' r' u' hlk'
        rw [hlb] at hlk'
        by_cases hcc : c' = c
        · subst hcc
          rw [mapLookup_delete_self _ _ hbnd] at hlk'
          cases hlk'
        · rw [mapLookup_delete_ne _ _ _ hcc] at hlk'
          rw [memberSock_bindings_irrelevant]
          exact hf1 c' r' u' hcc hlk'
      · intro r' room' u' m' hlkr hlkm
        obtain ⟨hb2, hc2⟩ := hf2 r' room' u' m' hlkr hlkm
        rw [hlb, mapLookup_delete_ne _ _ _ hc2]
        exact hb2

/-- The invariant is preserved along any supersede-free join/leave trace. -/
theorem inv_run (T : List InEvent) : ∀ s : ServerState, Inv s →
    onlyJoinLeave T = true → supFree s T = true → Inv (run s T).1 := by
  induction T with
  | nil =>
      intro s hinv _ _
      simpa [run] using hinv
  | cons e es ih =>
      intro s hinv hol hsf
      have hol' : isJoinOrLeave e = true ∧ onlyJoinLeave es = true := by
        simpa [onlyJoinLeave, List.all_cons, Bool.and_eq_true] using hol
      have hsf' : noSupersede s e = true ∧ supFree (tick (step s e).1) es = true := by
        simpa [supFree, Bool.and_eq_true] using hsf
      have h1 : Inv (step s e).1 := by
        cases e with
        | join c r u n => exact inv_join s c r u n hinv hsf'.1
        | disconnect c => exact inv_disc s c hinv
        | position c p => exact absurd hol'.1 (by simp [isJoinOrLeave])
        | symbolCreate c fid f => exact absurd hol'.1 (by simp [isJoinOrLeave])
        | symbolUpdate c up => exact absurd hol'.1 (by simp [isJoinOrLeave])
        | symbolDelete c i => exact absurd hol'.1 (by simp [isJoinOrLeave])
      have h2 : Inv (tick (step s e).1) := h1
      simpa [run] using ih (tick (step s e).1) h2 hol'.2 hsf'.2

/-- Claim C3 (amended): for every sequence of join and leave/disconnect
events in which no join binds a (room, user) pair already bound by a
different live connection (no superseding), the member count observed via
the room snapshot equals the number of connections currently bound to that
room — no ghost members and no missing ones.  (The superseding case is the
counterexample to the unrestricted statement: the superseded connection
stays bound without a member record.) -/
theorem claim3_amended_member_count (T : List InEvent) (r : String)
    (hol : onlyJoinLeave T = true) (hsf : supFree state0 T = true) :
    memberCountOf (run state0 T).1 r = boundCount (run state0 T).1 r :=
  count_eq_of_inv _ (inv_run T state0 inv_state0 hol hsf) r

/-- Witness trace for the amended C3: two distinct users join, one leaves. -/
def trace3w : List InEvent :=
  [.join "c1" "R" "U" none, .join "c2" "R" "U2" none, .disconnect "c1"]

/-- Witness for the amended C3 on `trace3w`: one member record (`U2`) and
one bound connection (`c2`) remain. -/
theorem claim3_witness :
    memberCountOf (run state0 trace3w).1 "R" = boundCount (run state0 trace3w).1 "R" :=
  claim3_amended_member_count trace3w "R" (by decide) (by decide)

end SocketServer
